import Mathlib

/-!
Verification of the `site` package (static-site generator for
astrophena.name): a shallow embedding of its build pipeline and dev
server, with theorems checking the specification's claims about
destination-path derivation, page ordering, HTML-comment stripping,
front-matter error handling, the debounced rebuild loop, the static
HTTP handler, build atomicity, static-asset fingerprinting and the
rebuild event filter.

The embedding follows `internal/site/site.go`.  Pure helpers from the
Go standard library that the package calls (`path.Clean`,
`filepath.Base`, `strings` helpers, `sort.SliceStable`, the
`regexp.ReplaceAll` instance used for comment stripping,
`encoding/json` decoding and `crypto/sha256`) are translated here as
executable functions.
-/

namespace Site

/-! ### Character-list utilities (Go `strings` helpers) -/

/-- Left brace character, written via its code point. -/
def lbrace : Char := Char.ofNat 123

/-- Right brace character, written via its code point. -/
def rbrace : Char := Char.ofNat 125

/-- Go `strings.HasSuffix` on character lists. -/
def endsWithL (s suf : List Char) : Bool := suf.isSuffixOf s

/-- Go `strings.HasPrefix` on character lists. -/
def startsWithL (s pre : List Char) : Bool := pre.isPrefixOf s

/-- Go `strings.TrimPrefix` on character lists: drops `pre` when it is a
prefix of `s`, otherwise returns `s` unchanged. -/
def dropPreL (s pre : List Char) : List Char :=
  if pre.isPrefixOf s then s.drop pre.length else s

/-- Go `strings.HasSuffix`. -/
def goHasSuffix (s suf : String) : Bool := endsWithL s.data suf.data

/-- Go `strings.TrimPrefix`. -/
def goTrimPre (s pre : String) : String := ⟨dropPreL s.data pre.data⟩

/-- Splits a character list on a separator character, keeping empty
segments, as Go's `strings.Split` does. -/
def splitOnChar (c : Char) : List Char → List (List Char)
  | [] => [[]]
  | x :: xs =>
    let r := splitOnChar c xs
    if x = c then [] :: r
    else
      match r with
      | h :: t => (x :: h) :: t
      | [] => [[x]]

/-! ### Go `path.Clean` (slash-separated lexical cleaning)

`path.Clean` applies the classic lexical rules: collapse repeated
slashes, drop `.` elements, resolve `..` against a preceding element,
drop leading `..` of a rooted path, and return `.` for an empty
result.  The implementation below processes the slash-separated
segments with an explicit stack, which matches the documented
semantics of the Go routine. -/

/-- Processes path segments against a stack, resolving `.` and `..`
as `path.Clean` does.  `rooted` tells whether the original path began
with a slash (a rooted path drops `..` segments that would climb above
the root). -/
def cleanSegs (rooted : Bool) : List (List Char) → List (List Char) → List (List Char)
  | [], acc => acc.reverse
  | seg :: rest, acc =>
    if seg = [] ∨ seg = ['.'] then cleanSegs rooted rest acc
    else if seg = ['.', '.'] then
      match acc with
      | top :: acc' =>
        if top = ['.', '.'] then cleanSegs rooted rest (seg :: top :: acc')
        else cleanSegs rooted rest acc'
      | [] => if rooted then cleanSegs rooted rest [] else cleanSegs rooted rest [seg]
    else cleanSegs rooted rest (seg :: acc)

/-- Go `path.Clean` on character lists. -/
def pathCleanL (p : List Char) : List Char :=
  if p = [] then ['.']
  else
    let rooted : Bool := p.head? = some '/'
    let segs := cleanSegs rooted (splitOnChar '/' p) []
    let body := (segs.intersperse ['/']).flatten
    if rooted then '/' :: body
    else if body = [] then ['.'] else body

/-- Go `path.Clean`. -/
def pathClean (p : String) : String := ⟨pathCleanL p.data⟩

/-! ### Go `filepath.Base` and `filepath.Ext` (Unix separator) -/

/-- Go `filepath.Base` on character lists: strips trailing slashes and
returns the last path element; the empty path gives `.`, an
all-slashes path gives `/`. -/
def filepathBaseL (p : List Char) : List Char :=
  if p = [] then ['.']
  else
    let q := p.reverse.dropWhile (· = '/')
    if q = [] then ['/']
    else (q.takeWhile (· ≠ '/')).reverse

/-- Go `filepath.Base`. -/
def filepathBase (p : String) : String := ⟨filepathBaseL p.data⟩

/-- Go `filepath.Ext` on character lists: the suffix starting at the
final dot in the final path element, or empty when there is none. -/
def filepathExtL (p : List Char) : List Char :=
  let tailPart := (p.reverse.takeWhile (· ≠ '/')).reverse
  let afterDot := tailPart.reverse.takeWhile (· ≠ '.')
  if afterDot.length = tailPart.length then []
  else '.' :: afterDot.reverse

/-- Go `filepath.Ext`. -/
def filepathExt (p : String) : String := ⟨filepathExtL p.data⟩

/-! ### The rebuild event filter (`shouldRebuild`)

`fsnotify` operation bits, from the fsnotify package: `Create = 1`,
`Write = 2`, `Remove = 4`, `Rename = 8`, `Chmod = 16`.  An event's
`Op` is a bitmask that may combine several of them. -/

/-- fsnotify `Create` bit. -/
def opCreate : Nat := 1

/-- fsnotify `Write` bit. -/
def opWrite : Nat := 2

/-- fsnotify `Remove` bit. -/
def opRemove : Nat := 4

/-- fsnotify `Rename` bit. -/
def opRename : Nat := 8

/-- fsnotify `Chmod` bit. -/
def opChmod : Nat := 16

/-- Translation of `shouldRebuild` from `internal/site/site.go`: ignore
macOS `.DS_Store` junk, Vim probe files named `4913` and Vim backup
files ending in a tilde; rebuild on create, remove or write events and
ignore all others. -/
def shouldRebuild (path : String) (op : Nat) : Bool :=
  let base := filepathBase path
  if base = ".DS_Store" then false
  else if base = "4913" then false
  else if goHasSuffix base "~" then false
  else if op &&& opCreate ≠ 0 then true
  else if op &&& opRemove ≠ 0 then true
  else if op &&& opWrite ≠ 0 then true
  else false

/-- Tells whether a base name is one of the junk names that
`shouldRebuild` always ignores. -/
def junkBase (base : String) : Prop :=
  base = ".DS_Store" ∨ base = "4913" ∨ goHasSuffix base "~" = true

instance (base : String) : Decidable (junkBase base) := by
  unfold junkBase; infer_instance

/-- C9.  The rebuild filter returns false for junk base names
regardless of the operation, and otherwise returns true exactly when
the operation includes the create, remove or write bit; in particular
chmod-only and rename-only events never trigger a rebuild. -/
theorem shouldRebuild_spec (p : String) (op : Nat) :
    shouldRebuild p op = true ↔
      (¬ junkBase (filepathBase p) ∧
        (op &&& opCreate ≠ 0 ∨ op &&& opRemove ≠ 0 ∨ op &&& opWrite ≠ 0)) := by
  unfold shouldRebuild junkBase
  repeat' split
  all_goals simp_all

/-- Concrete instances of the C9 characterization: a Vim probe file is
ignored on write, a chmod-only event on a page is ignored, and a write
to a page triggers a rebuild. -/
theorem shouldRebuild_spec_witness :
    shouldRebuild "lololol/4913" opWrite = false ∧
    shouldRebuild "pages/hello.md" opChmod = false ∧
    shouldRebuild "pages/hello.md" opWrite = true := by
  refine ⟨?_, ?_, ?_⟩
  · by_contra h
    have h' := (shouldRebuild_spec "lololol/4913" opWrite).mp (by
      revert h; cases hv : shouldRebuild "lololol/4913" opWrite <;> simp)
    exact h'.1 (by decide)
  · by_contra h
    have h' := (shouldRebuild_spec "pages/hello.md" opChmod).mp (by
      revert h; cases hv : shouldRebuild "pages/hello.md" opChmod <;> simp)
    rcases h'.2 with hc | hc | hc <;> revert hc <;> decide
  · exact (shouldRebuild_spec "pages/hello.md" opWrite).mpr ⟨by decide, by decide⟩

/-! ### JSON values and decoding (model of `encoding/json` as used by `Page.parse`)

`Page.parse` hands the collected front-matter block to
`json.Unmarshal`.  The embedding below parses JSON text into a value
tree and decodes the known front-matter fields, following the Go
decoder's observable behaviour: leading/trailing whitespace is
allowed, trailing garbage is an error, a non-object top level is an
error, unknown keys are ignored, key matching is ASCII
case-insensitive, a `null` value leaves a field untouched, and a type
mismatch is an error. -/

/-- JSON white space characters. -/
def isJsonWs (c : Char) : Bool := c = ' ' ∨ c = '\t' ∨ c = '\n' ∨ c = '\r'

/-- A JSON value; numbers keep their lexeme, which is all the decoder
needs (a number in a string-typed field is a mismatch either way). -/
inductive Json where
  | null
  | bool (b : Bool)
  | num (lexeme : List Char)
  | str (s : List Char)
  | arr (elems : List Json)
  | obj (members : List (List Char × Json))
deriving Inhabited

/-- Tells whether a JSON value is the `null` literal. -/
def Json.isNull : Json → Bool
  | Json.null => true
  | _ => false

/-- Value of a hexadecimal digit. -/
def hexVal (c : Char) : Option Nat :=
  if '0' ≤ c ∧ c ≤ '9' then some (c.toNat - '0'.toNat)
  else if 'a' ≤ c ∧ c ≤ 'f' then some (c.toNat - 'a'.toNat + 10)
  else if 'A' ≤ c ∧ c ≤ 'F' then some (c.toNat - 'A'.toNat + 10)
  else none

/-- Parses the body of a JSON string literal (the opening quote already
consumed), returning the decoded characters and the remaining input.
Unescaped control characters and invalid escapes are errors. -/
def parseStrLit : List Char → Option (List Char × List Char)
  | [] => none
  | c :: rest =>
    if c = '"' then some ([], rest)
    else if c = '\\' then
      match rest with
      | [] => none
      | e :: r1 =>
        if e = '"' then (parseStrLit r1).map (fun p => ('"' :: p.1, p.2))
        else if e = '\\' then (parseStrLit r1).map (fun p => ('\\' :: p.1, p.2))
        else if e = '/' then (parseStrLit r1).map (fun p => ('/' :: p.1, p.2))
        else if e = 'b' then (parseStrLit r1).map (fun p => (Char.ofNat 8 :: p.1, p.2))
        else if e = 'f' then (parseStrLit r1).map (fun p => (Char.ofNat 12 :: p.1, p.2))
        else if e = 'n' then (parseStrLit r1).map (fun p => ('\n' :: p.1, p.2))
        else if e = 'r' then (parseStrLit r1).map (fun p => ('\r' :: p.1, p.2))
        else if e = 't' then (parseStrLit r1).map (fun p => ('\t' :: p.1, p.2))
        else if e = 'u' then
          match r1 with
          | h1 :: h2 :: h3 :: h4 :: r2 =>
            match hexVal h1, hexVal h2, hexVal h3, hexVal h4 with
            | some a, some b, some c4, some d =>
              (parseStrLit r2).map
                (fun p => (Char.ofNat (a * 4096 + b * 256 + c4 * 16 + d) :: p.1, p.2))
            | _, _, _, _ => none
          | _ => none
        else none
    else if c.toNat < 32 then none
    else (parseStrLit rest).map (fun p => (c :: p.1, p.2))

/-- Parses a JSON number lexeme (sign, integer part with the
leading-zero rule, optional fraction and exponent), returning the
lexeme and the remaining input. -/
def parseNumLit (s : List Char) : Option (List Char × List Char) :=
  let (sign, s1) : List Char × List Char :=
    match s with
    | '-' :: r => (['-'], r)
    | _ => ([], s)
  match s1 with
  | c :: cs =>
    if ¬ c.isDigit then none
    else
      let (ip, s2) : List Char × List Char :=
        if c = '0' then ([c], cs)
        else (s1.takeWhile Char.isDigit, s1.dropWhile Char.isDigit)
      let (fp, s3) : List Char × List Char :=
        match s2 with
        | '.' :: r =>
          ('.' :: r.takeWhile Char.isDigit, r.dropWhile Char.isDigit)
        | _ => ([], s2)
      if fp = ['.'] then none
      else
        match s3 with
        | e :: r =>
          if e = 'e' ∨ e = 'E' then
            let (es, r1) : List Char × List Char :=
              match r with
              | '+' :: r' => (['+'], r')
              | '-' :: r' => (['-'], r')
              | _ => ([], r)
            let ds := r1.takeWhile Char.isDigit
            if ds = [] then none
            else some (sign ++ ip ++ fp ++ e :: es ++ ds, r1.dropWhile Char.isDigit)
          else some (sign ++ ip ++ fp, s3)
        | [] => some (sign ++ ip ++ fp, s3)
  | [] => none

mutual

/-- Parses a JSON value from the input, fuel-indexed; the fuel only
needs to dominate the nesting depth, and callers pass the input length
plus one. -/
def parseVal : Nat → List Char → Option (Json × List Char)
  | 0, _ => none
  | f + 1, s =>
    let s := s.dropWhile isJsonWs
    match s with
    | [] => none
    | c :: rest =>
      if c = '"' then (parseStrLit rest).map (fun p => (Json.str p.1, p.2))
      else if c = lbrace then
        let rest' := rest.dropWhile isJsonWs
        match rest' with
        | d :: rest'' => if d = rbrace then some (Json.obj [], rest'') else parseMembers f [] rest'
        | [] => none
      else if c = '[' then
        let rest' := rest.dropWhile isJsonWs
        match rest' with
        | d :: rest'' => if d = ']' then some (Json.arr [], rest'') else parseElems f [] rest'
        | [] => none
      else if startsWithL s ['t', 'r', 'u', 'e'] then some (Json.bool true, s.drop 4)
      else if startsWithL s ['f', 'a', 'l', 's', 'e'] then some (Json.bool false, s.drop 5)
      else if startsWithL s ['n', 'u', 'l', 'l'] then some (Json.null, s.drop 4)
      else (parseNumLit s).map (fun p => (Json.num p.1, p.2))

/-- Parses the members of a JSON object after the opening brace (the
empty-object case is handled by the caller). -/
def parseMembers : Nat → List (List Char × Json) → List Char → Option (Json × List Char)
  | 0, _, _ => none
  | f + 1, acc, s =>
    let s := s.dropWhile isJsonWs
    match s with
    | [] => none
    | c :: rest =>
      if c = '"' then
        match parseStrLit rest with
        | some (key, r1) =>
          match r1.dropWhile isJsonWs with
          | ':' :: r2 =>
            match parseVal f r2 with
            | some (v, r3) =>
              match r3.dropWhile isJsonWs with
              | ',' :: r4 => parseMembers f (acc ++ [(key, v)]) r4
              | d :: r4 => if d = rbrace then some (Json.obj (acc ++ [(key, v)]), r4) else none
              | [] => none
            | none => none
          | _ => none
        | none => none
      else none

/-- Parses the elements of a JSON array after the opening bracket (the
empty-array case is handled by the caller). -/
def parseElems : Nat → List Json → List Char → Option (Json × List Char)
  | 0, _, _ => none
  | f + 1, acc, s =>
    match parseVal f s with
    | some (v, r1) =>
      match r1.dropWhile isJsonWs with
      | ',' :: r2 => parseElems f (acc ++ [v]) r2
      | ']' :: r2 => some (Json.arr (acc ++ [v]), r2)
      | _ => none
    | none => none

end

/-- Parses a complete JSON document: one value, with only white space
around it. -/
def jsonParseDoc (s : List Char) : Option Json :=
  match parseVal (s.length + 1) s with
  | some (v, rest) => if rest.dropWhile isJsonWs = [] then some v else none
  | none => none

/-! ### Dates (`date` front-matter field, layout `2006-01-02`) -/

/-- A calendar date as parsed by `time.Parse` with the `2006-01-02`
layout. -/
structure GoDate where
  year : Nat
  month : Nat
  day : Nat
deriving Repr, DecidableEq

/-- Gregorian leap-year rule, as in Go's `time` package. -/
def isLeap (y : Nat) : Bool := y % 4 = 0 && (y % 100 ≠ 0 || y % 400 = 0)

/-- Number of days in a month. -/
def daysIn (y m : Nat) : Nat :=
  if m = 2 then (if isLeap y then 29 else 28)
  else if m = 4 ∨ m = 6 ∨ m = 9 ∨ m = 11 then 30
  else 31

/-- The `time.Time.Before` comparison restricted to calendar dates:
chronological (lexicographic) order on year, month, day. -/
def dateBefore (a b : GoDate) : Bool :=
  if a.year ≠ b.year then a.year < b.year
  else if a.month ≠ b.month then a.month < b.month
  else a.day < b.day

/-- Parses a `2006-01-02`-layout date: four year digits, two month
digits and two day digits with in-range values, as `time.Parse`
validates them. -/
def goDateParse (s : List Char) : Option GoDate :=
  match s with
  | [y1, y2, y3, y4, d1, m1, m2, d2, dd1, dd2] =>
    if d1 = '-' ∧ d2 = '-' ∧ y1.isDigit ∧ y2.isDigit ∧ y3.isDigit ∧ y4.isDigit ∧
        m1.isDigit ∧ m2.isDigit ∧ dd1.isDigit ∧ dd2.isDigit then
      let y := (((y1.toNat - 48) * 10 + (y2.toNat - 48)) * 10 + (y3.toNat - 48)) * 10 +
        (y4.toNat - 48)
      let m := (m1.toNat - 48) * 10 + (m2.toNat - 48)
      let d := (dd1.toNat - 48) * 10 + (dd2.toNat - 48)
      if 1 ≤ m ∧ m ≤ 12 ∧ 1 ≤ d ∧ d ≤ daysIn y m then some ⟨y, m, d⟩ else none
    else none
  | _ => none

/-- The custom `date.UnmarshalJSON` from `site.go`, lifted to decoded
JSON values: a JSON `null` leaves the pointer field nil, the string
`"null"` yields the zero time (year 1, January 1), any other string
must parse with the `2006-01-02` layout, and every other JSON value
fails (its raw bytes never parse as a date). -/
def decodeDateField : Json → Option (Option GoDate)
  | Json.null => some none
  | Json.str s =>
    if s = ['n', 'u', 'l', 'l'] then some (some ⟨1, 1, 1⟩)
    else (goDateParse s).map some
  | _ => none

/-! ### The `Page` record and front-matter decoding -/

/-- A site page: the exported front-matter fields of `Page` in
`site.go` plus the internal source path, destination path and
contents. -/
structure Page where
  title : String := ""
  permalink : String := ""
  template : String := ""
  contentOnly : Bool := false
  date : Option GoDate := none
  draft : Bool := false
  metaTags : List (String × String) := []
  summary : String := ""
  type : String := ""
  css : List String := []
  js : List String := []
  path : String := ""
  dstPath : String := ""
  contents : List Char := []
deriving Repr, DecidableEq, Inhabited

/-- Lower-cases an ASCII letter. -/
def asciiLower (c : Char) : Char :=
  if 'A' ≤ c ∧ c ≤ 'Z' then Char.ofNat (c.toNat + 32) else c

/-- ASCII case-insensitive key matching, as the Go JSON decoder
matches object keys against struct tags. -/
def keyMatches (k : List Char) (tag : String) : Bool :=
  k.map asciiLower = tag.data.map asciiLower

/-- Decodes a JSON value into a Go string field. -/
def decodeString : Json → Option String
  | Json.str s => some ⟨s⟩
  | _ => none

/-- Decodes a JSON value into a Go bool field. -/
def decodeBool : Json → Option Bool
  | Json.bool b => some b
  | _ => none

/-- Decodes a JSON value into a Go `[]string` field; a `null` element
leaves the zero value, i.e. the empty string. -/
def decodeStringList : Json → Option (List String)
  | Json.arr es =>
    es.foldr
      (fun e acc =>
        match acc with
        | none => none
        | some tl =>
          match e with
          | Json.str s => some (⟨s⟩ :: tl)
          | Json.null => some ("" :: tl)
          | _ => none)
      (some [])
  | _ => none

/-- Decodes a JSON value into a Go `map[string]string` field; a `null`
value leaves the zero value, i.e. the empty string. -/
def decodeStringMap : Json → Option (List (String × String))
  | Json.obj ms =>
    ms.foldr
      (fun m acc =>
        match acc with
        | none => none
        | some tl =>
          match m.2 with
          | Json.str s => some ((⟨m.1⟩, (⟨s⟩ : String)) :: tl)
          | Json.null => some ((⟨m.1⟩, ("" : String)) :: tl)
          | _ => none)
      (some [])
  | _ => none

/-- Applies one JSON object member to the page being decoded: known
keys (matched ASCII case-insensitively as in Go) update their field, a
`null` value leaves the field untouched, a type mismatch is an error
and unknown keys are ignored. -/
def applyField (pg : Page) (k : List Char) (v : Json) : Option Page :=
  if keyMatches k "date" then
    (decodeDateField v).map (fun d => { pg with date := d })
  else if v.isNull then some pg
  else if keyMatches k "title" then (decodeString v).map (fun s => { pg with title := s })
  else if keyMatches k "permalink" then (decodeString v).map (fun s => { pg with permalink := s })
  else if keyMatches k "template" then (decodeString v).map (fun s => { pg with template := s })
  else if keyMatches k "content_only" then (decodeBool v).map (fun b => { pg with contentOnly := b })
  else if keyMatches k "draft" then (decodeBool v).map (fun b => { pg with draft := b })
  else if keyMatches k "meta_tags" then (decodeStringMap v).map (fun m => { pg with metaTags := m })
  else if keyMatches k "summary" then (decodeString v).map (fun s => { pg with summary := s })
  else if keyMatches k "type" then (decodeString v).map (fun s => { pg with type := s })
  else if keyMatches k "css" then (decodeStringList v).map (fun l => { pg with css := l })
  else if keyMatches k "js" then (decodeStringList v).map (fun l => { pg with js := l })
  else some pg

/-- Decodes the members of the top-level JSON object into a page, in
order (later duplicate keys win, as in Go). -/
def decodePageFields (ms : List (List Char × Json)) : Option Page :=
  ms.foldl
    (fun acc m =>
      match acc with
      | none => none
      | some pg => applyField pg m.1 m.2)
    (some ({} : Page))

/-- The `json.Unmarshal(frontmatter, p)` call of `Page.parse`: the
block must be one JSON object (with only surrounding white space), and
its members decode into the page's front-matter fields. -/
def jsonUnmarshalPage (s : List Char) : Option Page :=
  match jsonParseDoc s with
  | some (Json.obj ms) => decodePageFields ms
  | _ => none

/-! ### Splitting front matter from contents

`Page.parse` reads the input line by line with a `bufio.Scanner`
(split on newlines, a trailing carriage return stripped) and feeds
each line, with its newline re-appended, through a small state
machine: a line consisting solely of a left brace starts the front
matter, a line consisting solely of a right brace ends it (and is
included), and every line after that is content. -/

/-- The opening front-matter delimiter line. -/
def leftDelim : List Char := [lbrace, '\n']

/-- The closing front-matter delimiter line. -/
def rightDelim : List Char := [rbrace, '\n']

/-- Strips one trailing carriage return, as `bufio.ScanLines` does. -/
def stripCR (l : List Char) : List Char := if endsWithL l ['\r'] then l.dropLast else l

/-- The tokens produced by `bufio.Scanner` with the line splitter: the
input split on newlines, with no empty final token after a trailing
newline and a trailing carriage return stripped from each line. -/
def scanLines (s : List Char) : List (List Char) :=
  if s = [] then []
  else
    let toks := splitOnChar '\n' s
    let toks := if toks.getLast? = some [] then toks.dropLast else toks
    toks.map stripCR

/-- State of the front-matter line scanner of `Page.parse`. -/
structure SplitSt where
  fm : List Char := []
  contents : List Char := []
  reachedFm : Bool := false
  reachedContents : Bool := false
deriving Repr, DecidableEq

/-- One loop iteration of the front-matter scanner, a direct
translation of the loop body in `Page.parse` (the closing-delimiter
branch appends the line to the front matter and continues; otherwise
an opening delimiter sets the front-matter flag, on which the line
goes into the front matter, and after the block is closed lines go
into the contents). -/
def splitStep (st : SplitSt) (line : List Char) : SplitSt :=
  if st.reachedContents = false ∧ line = rightDelim then
    { st with reachedFm := false, fm := st.fm ++ line, reachedContents := true }
  else
    let st1 := if st.reachedContents = false ∧ line = leftDelim then
        { st with reachedFm := true }
      else st
    if st1.reachedFm then { st1 with fm := st1.fm ++ line }
    else if st1.reachedContents then { st1 with contents := st1.contents ++ line }
    else st1

/-- Splits an input into its collected front-matter block and its
contents, as the scanner loop of `Page.parse` does. -/
def splitFrontmatter (s : List Char) : List Char × List Char :=
  let lines := (scanLines s).map (fun t => t ++ ['\n'])
  let fin := lines.foldl splitStep {}
  (fin.fm, fin.contents)

/-! ### Permalink validation and the destination path -/

/-- Tells whether a character list contains an ASCII control
character, which `net/url` parsing rejects. -/
def hasCtl (s : List Char) : Bool := s.any (fun c => c.toNat < 32 ∨ c.toNat = 127)

/-- Checks that every percent sign begins a valid two-digit escape, as
`net/url` unescaping requires. -/
def validEscapes : List Char → Bool
  | [] => true
  | '%' :: a :: b :: rest => (hexVal a).isSome && (hexVal b).isSome && validEscapes rest
  | '%' :: _ => false
  | _ :: rest => validEscapes rest

/-- Splits a leading URI scheme (letter, then letters, digits, `+`,
`-` or `.`, up to a colon) from the rest, as `net/url`'s scheme
scanner does. -/
def schemeSplitAux : List Char → List Char → Option (List Char × List Char)
  | [], _ => none
  | c :: rest, acc =>
    if c = ':' then (if acc = [] then none else some (acc.reverse, rest))
    else if (if acc = [] then c.isAlpha
        else c.isAlpha ∨ c.isDigit ∨ c = '+' ∨ c = '-' ∨ c = '.') then
      schemeSplitAux rest (c :: acc)
    else none

/-- Modelled from the spec: the success condition of
`url.ParseRequestURI`, which `Page.parse` uses to validate permalinks
(the function itself lives in the Go standard library).  The raw URL
must be non-empty, contain no control characters and valid percent
escapes, and be either an absolute path or a scheme followed by an
absolute reference; in particular a relative path such as `dwd/` is
rejected. -/
def validRequestURI (s : String) : Bool :=
  let l := s.data
  if l = [] then false
  else if hasCtl l then false
  else if validEscapes l = false then false
  else if startsWithL l ['/'] then true
  else
    match schemeSplitAux l [] with
    | some (_, rest) => startsWithL rest ['/']
    | none => false

/-- The destination-path computation at the end of `Page.parse`: start
from the permalink, append `.html` when it is not already the suffix
(the root permalink first becoming `/index`), then clean the result
lexically. -/
def mkDstPath (permalink : String) : String :=
  let d0 := permalink
  let d1 := if goHasSuffix d0 ".html" = false then
      (if d0 = "/" then d0 ++ "index" else d0) ++ ".html"
    else d0
  pathClean d1

/-- Errors of `Page.parse`, in the order the Go code declares them.
The `frontmatterSplit` error can only arise from scanner I/O failures
(for example an over-long line), which the embedding does not model. -/
inductive ParseErr where
  | formatUnsupported
  | frontmatterSplit
  | frontmatterMissing
  | frontmatterParse
  | frontmatterMissingParam
  | permalinkInvalid
deriving Repr, DecidableEq

/-- Translation of `Page.parse`: check the source extension, split
front matter from contents, fail when the collected block is empty,
decode the block as JSON, default the page type, check the required
fields, validate the permalink and derive the destination path. -/
def pageParse (path : String) (input : String) : Except ParseErr Page :=
  if ¬ (filepathExt path = ".html" ∨ filepathExt path = ".md") then
    Except.error ParseErr.formatUnsupported
  else
    let split := splitFrontmatter input.data
    if split.1 = [] then Except.error ParseErr.frontmatterMissing
    else
      match jsonUnmarshalPage split.1 with
      | none => Except.error ParseErr.frontmatterParse
      | some pg0 =>
        let pg1 := { pg0 with path := path, contents := split.2 }
        let pg2 := if pg1.type = "" then { pg1 with type := "page" } else pg1
        if pg2.title = "" ∨ pg2.template = "" ∨ pg2.permalink = "" then
          Except.error ParseErr.frontmatterMissingParam
        else if validRequestURI pg2.permalink = false then
          Except.error ParseErr.permalinkInvalid
        else
          Except.ok { pg2 with dstPath := mkDstPath pg2.permalink }

/-! ### C1: destination-path derivation -/

/-- Case analysis of the destination-path computation: a permalink
already ending in `.html` is only cleaned, the root permalink becomes
`/index.html`, and any other permalink gets a flat `.html` suffix. -/
theorem mkDstPath_cases (s : String) :
    mkDstPath s =
      (if goHasSuffix s ".html" then pathClean s
        else if s = "/" then "/index.html"
        else pathClean (s ++ ".html")) := by
  unfold mkDstPath
  by_cases h1 : goHasSuffix s ".html"
  · simp [h1]
  · by_cases h2 : s = "/"
    · subst h2; simp [h1]; rfl
    · simp [h1, h2]

/-- C1 (amended).  For every successfully parsed page, the destination
path is the cleaned permalink when the permalink already ends in
`.html`; the root permalink `/` maps to `/index.html`; and every other
permalink gets a flat `.html` suffix appended (so `/hello-world` maps
to `/hello-world.html`), not an `index.html` file inside a
directory. -/
theorem pageParse_dstPath (path input : String) (pg : Page)
    (h : pageParse path input = Except.ok pg) :
    pg.dstPath =
      (if goHasSuffix pg.permalink ".html" then pathClean pg.permalink
        else if pg.permalink = "/" then "/index.html"
        else pathClean (pg.permalink ++ ".html")) := by
  simp only [pageParse] at h
  repeat' split at h
  any_goals exact Except.noConfusion h
  all_goals
    injection h with h2
    subst h2
    simp [mkDstPath_cases]

/-- Concrete instance of the C1 characterization: the standard valid
front matter with root permalink parses and its destination path is
`/index.html`. -/
theorem pageParse_dstPath_witness :
    pageParse "foo.md"
        "\x7b\n  \"title\": \"Foo\",\n  \"template\": \"layout\",\n  \"permalink\": \"/\"\n\x7d\n\nFoo.\n" =
      Except.ok
        { title := "Foo", permalink := "/", template := "layout", type := "page",
          path := "foo.md", dstPath := "/index.html", contents := "\nFoo.\n".data } ∧
      ({ title := "Foo", permalink := "/", template := "layout", type := "page",
          path := "foo.md", dstPath := "/index.html", contents := "\nFoo.\n".data } : Page).dstPath =
        (if goHasSuffix "/" ".html" then pathClean "/"
          else if ("/" : String) = "/" then "/index.html"
          else pathClean ("/" ++ ".html")) :=
  ⟨by rfl,
    pageParse_dstPath "foo.md"
      "\x7b\n  \"title\": \"Foo\",\n  \"template\": \"layout\",\n  \"permalink\": \"/\"\n\x7d\n\nFoo.\n"
      _ (by rfl)⟩

/-- C1 counterexample.  The claim maps `/hello-world` to
`hello-world/index.html`, but the code maps it to `/hello-world.html`:
a flat `.html` file, not an `index.html` file inside a directory. -/
theorem pageParse_hello_world_counterexample :
    (pageParse "hello.md"
        "\x7b\n  \"title\": \"Foo\",\n  \"template\": \"layout\",\n  \"permalink\": \"/hello-world\"\n\x7d\n\nHi.\n").map
        Page.dstPath = Except.ok "/hello-world.html" ∧
      ("/hello-world.html" : String) ≠ "hello-world/index.html" ∧
      ("/hello-world.html" : String) ≠ "/hello-world/index.html" :=
  ⟨by rfl, by decide, by decide⟩

/-! ### C4: missing front matter versus parse errors -/

/-- Folding the front-matter scanner over lines that are neither the
opening nor the closing delimiter leaves its pre-block state
unchanged. -/
theorem foldl_splitStep_no_delim (lines : List (List Char))
    (h : ∀ l ∈ lines, l ≠ leftDelim ∧ l ≠ rightDelim) (st : SplitSt)
    (hfm : st.reachedFm = false) (hc : st.reachedContents = false) :
    lines.foldl splitStep st = st := by
  induction lines with
  | nil => rfl
  | cons l ls ih =>
    have hl := h l (by simp)
    have hstep : splitStep st l = st := by
      unfold splitStep
      rw [hc]
      simp [hl.1, hl.2, hfm, hc]
    simp only [List.foldl, hstep]
    exact ih (fun x hx => h x (by simp [hx]))

/-- A scanner line differs from a delimiter exactly when its text
(without the newline) differs from the delimiter's brace. -/
theorem line_ne_delim (t : List Char) (c : Char) (ht : t ≠ [c]) :
    t ++ ['\n'] ≠ [c, '\n'] := by
  intro heq
  apply ht
  have := congrArg (List.dropLast) heq
  simpa using this

/-- C4 (amended).  The "missing front matter" error is raised exactly
when the collected block is empty, which happens when no line of the
input consists solely of `{` or solely of `}`; an input whose
collected block is non-empty but fails JSON-object decoding — in
particular one with an opening `{` line but no closing `}` line, whose
block runs to the end of the input — fails with the "parse" error
instead. -/
theorem pageParse_error_classification :
    (∀ path input : String,
        (filepathExt path = ".html" ∨ filepathExt path = ".md") →
        (∀ l ∈ scanLines input.data, l ≠ [lbrace] ∧ l ≠ [rbrace]) →
        pageParse path input = Except.error ParseErr.frontmatterMissing) ∧
    (∀ path input : String,
        (filepathExt path = ".html" ∨ filepathExt path = ".md") →
        (splitFrontmatter input.data).1 ≠ [] →
        jsonUnmarshalPage (splitFrontmatter input.data).1 = none →
        pageParse path input = Except.error ParseErr.frontmatterParse) := by
  constructor
  · intro path input hext hlines
    have hsplit : (splitFrontmatter input.data).1 = [] := by
      unfold splitFrontmatter
      have : ((scanLines input.data).map (fun t => t ++ ['\n'])).foldl splitStep {} =
          ({} : SplitSt) := by
        apply foldl_splitStep_no_delim
        · intro l hl
          rcases List.mem_map.mp hl with ⟨t, ht, rfl⟩
          exact ⟨line_ne_delim t lbrace (hlines t ht).1,
            line_ne_delim t rbrace (hlines t ht).2⟩
        · rfl
        · rfl
      simp [this]
    unfold pageParse
    rw [if_neg (not_not_intro hext)]
    simp [hsplit]
  · intro path input hext hne hjson
    unfold pageParse
    rw [if_neg (not_not_intro hext)]
    simp [hne, hjson]

/-- Concrete instances of the C4 classification: an input with no
front-matter delimiters at all fails with the missing-front-matter
error, and an input whose opening `{` line is never closed collects a
block to end of input that fails JSON decoding, giving the parse
error. -/
theorem pageParse_error_classification_witness :
    pageParse "bar.md" "Hello, world!" = Except.error ParseErr.frontmatterMissing ∧
      pageParse "a.md" "\x7b\n  \"title\": \"x\"\n" = Except.error ParseErr.frontmatterParse :=
  ⟨pageParse_error_classification.1 "bar.md" "Hello, world!" (by decide) (by decide),
    pageParse_error_classification.2 "a.md" "\x7b\n  \"title\": \"x\"\n" (by decide)
      (by decide) (by rfl)⟩

/-- C4 counterexample.  The claim says an input with an opening line
`{` but no closing line `}` fails with the "missing front matter"
error; the code collects everything from the opening line to the end
of the input as the block and fails JSON decoding, so the error is the
"parse" one. -/
theorem pageParse_open_without_close_counterexample :
    pageParse "a.md" "\x7b\n  \"title\": \"x\"\n" = Except.error ParseErr.frontmatterParse ∧
      ParseErr.frontmatterParse ≠ ParseErr.frontmatterMissing :=
  ⟨by rfl, by decide⟩

/-! ### C3: HTML comment stripping

`Page.build` strips comments with
`regexp.MustCompile("<!--(.*?)-->").ReplaceAll(contents, [])`.  In Go
regular expressions `.` does not match a newline, so a match is a
literal `<!--`, a shortest run of non-newline characters, and the
nearest `-->`; replacement scans left to right and continues after
each match.  The functions below implement exactly that scan. -/

/-- Searches the text following a `<!--` for the nearest `-->` with no
newline before it (the lazy `(.*?)` cannot cross a newline), returning
the text after the `-->` when found. -/
def findClose : List Char → Option (List Char)
  | [] => none
  | c :: rest =>
    if c = '-' ∧ rest.take 2 = ['-', '>'] then some (rest.drop 2)
    else if c = '\n' then none
    else findClose rest

/-- Recognizes a `<!--` opener at the head of the text, returning the
text after it. -/
def openTest : List Char → Option (List Char)
  | c1 :: c2 :: c3 :: c4 :: rest =>
    if c1 = '<' ∧ c2 = '!' ∧ c3 = '-' ∧ c4 = '-' then some rest else none
  | _ => none

/-- One pass of `ReplaceAll` with the comment regex, fuel-indexed so
that it evaluates structurally; any fuel of at least the input length
suffices.  At each position a comment match (opener plus newline-free
close) is dropped and scanning resumes after it; otherwise one
character is emitted and scanning advances. -/
def stripCommentsFuel : Nat → List Char → List Char
  | 0, l => l
  | _ + 1, [] => []
  | f + 1, c :: rest =>
    match openTest (c :: rest) with
    | some after =>
      match findClose after with
      | some rem => stripCommentsFuel f rem
      | none => c :: stripCommentsFuel f rest
    | none => c :: stripCommentsFuel f rest

/-- The comment-stripping stage of `Page.build`: replace every match
of `<!--(.*?)-->` with nothing. -/
def stripComments (l : List Char) : List Char := stripCommentsFuel l.length l

/-- Tells whether the text contains a `-->` occurrence, i.e. whether a
lazy close could fire early inside it. -/
def hasCloseIn : List Char → Bool
  | [] => false
  | c :: rest =>
    if c = '-' ∧ rest.take 2 = ['-', '>'] then true else hasCloseIn rest

/-- A body piece: either plain text or the body of a comment. -/
def pieceOk : (List Char ⊕ List Char) → Prop
  | Sum.inl s => '<' ∉ s
  | Sum.inr c => '\n' ∉ c ∧ hasCloseIn c = false

instance : DecidablePred pieceOk := fun p => by
  cases p <;> (unfold pieceOk; infer_instance)

/-- Renders a list of pieces into a body: plain text verbatim, comment
bodies wrapped in `<!--` and `-->`. -/
def renderPieces : List (List Char ⊕ List Char) → List Char
  | [] => []
  | Sum.inl s :: rest => s ++ renderPieces rest
  | Sum.inr c :: rest =>
    '<' :: '!' :: '-' :: '-' :: (c ++ '-' :: '-' :: '>' :: renderPieces rest)

/-- The plain text of a list of pieces, with all comments dropped. -/
def plainParts : List (List Char ⊕ List Char) → List Char
  | [] => []
  | Sum.inl s :: rest => s ++ plainParts rest
  | Sum.inr _ :: rest => plainParts rest

/-- The opener test fails whenever the head character is not `<`. -/
theorem openTest_head (c : Char) (l : List Char) (hc : c ≠ '<') :
    openTest (c :: l) = none := by
  match l with
  | [] => rfl
  | [_] => rfl
  | [_, _] => rfl
  | _ :: _ :: _ :: _ =>
    simp only [openTest]
    rw [if_neg]
    intro h
    exact hc h.1

/-- Scanning for a close over a newline-free body with no embedded
`-->` finds exactly the final `-->`. -/
theorem findClose_append (c : List Char) (t : List Char)
    (h1 : '\n' ∉ c) (h2 : hasCloseIn c = false) :
    findClose (c ++ '-' :: '-' :: '>' :: t) = some t := by
  induction c with
  | nil => simp [findClose]
  | cons x xs ih =>
    have hx : x ≠ '\n' := by intro hh; exact h1 (by simp [hh])
    have h2' : ¬ (x = '-' ∧ xs.take 2 = ['-', '>']) ∧ hasCloseIn xs = false := by
      unfold hasCloseIn at h2
      constructor
      · intro hh
        rw [if_pos hh] at h2
        exact Bool.noConfusion h2
      · by_cases hh : x = '-' ∧ xs.take 2 = ['-', '>']
        · rw [if_pos hh] at h2; exact Bool.noConfusion h2
        · rwa [if_neg hh] at h2
    have hcond : ¬ (x = '-' ∧ ((xs ++ '-' :: '-' :: '>' :: t).take 2 = ['-', '>'])) := by
      match xs with
      | [] => simp
      | [y] =>
        simp only [List.cons_append, List.nil_append, List.take]
        intro hh
        exact absurd hh.2 (by simp)
      | y :: z :: zs =>
        intro hh
        exact h2'.1 ⟨hh.1, by simpa using hh.2⟩
    rw [List.cons_append]
    simp only [findClose]
    rw [if_neg hcond, if_neg hx]
    exact ih (fun hm => h1 (by simp [hm])) h2'.2

/-- Stripping consumes plain text with no `<` verbatim, spending fuel
equal to its length. -/
theorem stripFuel_plain (s t : List Char) (f : Nat) (hs : '<' ∉ s) :
    stripCommentsFuel (s.length + f) (s ++ t) = s ++ stripCommentsFuel f t := by
  induction s with
  | nil => simp
  | cons c cs ih =>
    have hc : c ≠ '<' := by intro hh; exact hs (by simp [hh])
    have hopen := openTest_head c (cs ++ t) hc
    simp only [List.length_cons, List.cons_append]
    rw [show cs.length + 1 + f = (cs.length + f) + 1 by omega]
    simp only [stripCommentsFuel]
    rw [hopen]
    exact congrArg (List.cons c) (ih (fun hm => hs (by simp [hm])))

/-- Stripping the empty text yields the empty text at any fuel. -/
theorem stripFuel_nil (f : Nat) : stripCommentsFuel f [] = [] := by
  cases f <;> rfl

/-- Stripping drops a leading comment whose body has no newline and no
embedded `-->`, spending one unit of fuel. -/
theorem stripFuel_comment (c t : List Char) (f : Nat)
    (h1 : '\n' ∉ c) (h2 : hasCloseIn c = false) :
    stripCommentsFuel (f + 1)
        ('<' :: '!' :: '-' :: '-' :: (c ++ '-' :: '-' :: '>' :: t)) =
      stripCommentsFuel f t := by
  simp only [stripCommentsFuel]
  rw [show openTest ('<' :: '!' :: '-' :: '-' :: (c ++ '-' :: '-' :: '>' :: t)) =
      some (c ++ '-' :: '-' :: '>' :: t) by simp only [openTest]; simp]
  simp [findClose_append c t h1 h2]

/-- Stripping a rendered piece list with enough fuel removes exactly
the comments. -/
theorem stripFuel_pieces (pieces : List (List Char ⊕ List Char))
    (hok : ∀ p ∈ pieces, pieceOk p) :
    ∀ f : Nat,
      stripCommentsFuel ((renderPieces pieces).length + f) (renderPieces pieces) =
        plainParts pieces := by
  induction pieces with
  | nil => intro f; exact stripFuel_nil _
  | cons p rest ih =>
    intro f
    have hp := hok p (by simp)
    have ihr := ih (fun q hq => hok q (by simp [hq]))
    match p with
    | Sum.inl s =>
      simp only [renderPieces, plainParts]
      rw [List.length_append, show s.length + (renderPieces rest).length + f =
        s.length + ((renderPieces rest).length + f) by omega]
      rw [stripFuel_plain s (renderPieces rest) _ hp]
      rw [ihr f]
    | Sum.inr c =>
      simp only [renderPieces, plainParts]
      have hlen : ('<' :: '!' :: '-' :: '-' :: (c ++ '-' :: '-' :: '>' ::
          renderPieces rest)).length + f =
          (c.length + 6 + (renderPieces rest).length + f) + 1 := by
        simp; omega
      rw [hlen]
      rw [stripFuel_comment c (renderPieces rest) _ hp.1 hp.2]
      rw [show c.length + 6 + (renderPieces rest).length + f =
        (renderPieces rest).length + (c.length + 6 + f) by omega]
      exact ihr (c.length + 6 + f)

/-- C3 (amended).  The comment-stripping stage of `Page.build` removes
every non-nested comment whose text contains no newline and no
embedded close marker: a body made of plain segments (free of `<`)
interleaved with such comments strips to exactly the plain segments.
Comments whose text contains a newline are not matched by the regex
(Go's `.` does not cross newlines) and are left in place. -/
theorem stripComments_removes_comments
    (pieces : List (List Char ⊕ List Char))
    (hok : ∀ p ∈ pieces, pieceOk p) :
    stripComments (renderPieces pieces) = plainParts pieces := by
  unfold stripComments
  have := stripFuel_pieces pieces hok 0
  simpa using this

/-- Concrete instance of the C3 theorem: a body with two plain
segments and two single-line comments strips to the plain segments. -/
theorem stripComments_removes_comments_witness :
    (∀ p ∈ [Sum.inl "Foo. ".data, Sum.inr " Some comment. ".data,
        Sum.inl " Bar.".data, (Sum.inr " LOL. ".data : List Char ⊕ List Char)], pieceOk p) ∧
      stripComments (renderPieces [Sum.inl "Foo. ".data, Sum.inr " Some comment. ".data,
          Sum.inl " Bar.".data, Sum.inr " LOL. ".data]) =
        plainParts [Sum.inl "Foo. ".data, Sum.inr " Some comment. ".data,
          Sum.inl " Bar.".data, Sum.inr " LOL. ".data] :=
  ⟨by simp only [List.mem_cons, List.not_mem_nil, or_false]
      rintro p (rfl | rfl | rfl | rfl) <;> decide,
    stripComments_removes_comments
      [Sum.inl "Foo. ".data, Sum.inr " Some comment. ".data,
        Sum.inl " Bar.".data, Sum.inr " LOL. ".data]
      (by simp only [List.mem_cons, List.not_mem_nil, or_false]
          rintro p (rfl | rfl | rfl | rfl) <;> decide)⟩

/-- C3 counterexample.  The claim says comments whose text contains a
newline are also removed, but the regex's `.` cannot match a newline:
the comment `<!--a↵b-->` survives stripping unchanged. -/
theorem stripComments_newline_counterexample :
    stripComments "<!--a\nb-->".data = "<!--a\nb-->".data ∧
      stripComments "<!--a\nb-->".data ≠ [] := by
  exact ⟨by decide, by decide⟩

/-! ### C2: the page sort in `Build`

`Build` sorts the collected pages with `sort.SliceStable` and the
comparator

  if pages[i].Date == nil || pages[j].Date == nil { return true }
  return !pages[i].Date.Time.Before(pages[j].Date.Time)

`sort.SliceStable` is Go's block insertion sort followed by symmetric
merging (`stable_func` in the sort package); the functions below
translate that algorithm.  Loops whose bounds are data-dependent take
explicit fuel; the fuels passed are always sufficient for the loop
bounds involved, and the theorems below only evaluate the sort on
concrete arrays. -/

/-- Swaps two array positions when both are in bounds (Go's `Swap`
callback; indices produced by the sort are always in bounds). -/
def aswap {α : Type} (arr : Array α) (i j : Nat) : Array α :=
  if h : i < arr.size ∧ j < arr.size then arr.swap ⟨i, h.1⟩ ⟨j, h.2⟩ else arr

/-- Array read with a default (indices produced by the sort are always
in bounds). -/
def aget {α : Type} [Inhabited α] (arr : Array α) (i : Nat) : α := arr.getD i default

/-- The inner loop of Go's `insertionSort_func`: sift the element at
`j` down while it is less than its left neighbour and `j > a`. -/
def insInner {α : Type} [Inhabited α] (less : α → α → Bool) (a : Nat) :
    Nat → Array α → Array α
  | 0, arr => arr
  | j + 1, arr =>
    if j + 1 > a ∧ less (aget arr (j + 1)) (aget arr j) then
      insInner less a j (aswap arr (j + 1) j)
    else arr

/-- The outer loop of Go's `insertionSort_func`, over `i` from `a + 1`
to `b - 1`, fuel-indexed (a fuel of `b` dominates the iteration
count). -/
def insOuter {α : Type} [Inhabited α] (less : α → α → Bool) (a b : Nat) :
    Nat → Nat → Array α → Array α
  | 0, _, arr => arr
  | f + 1, i, arr =>
    if i < b then insOuter less a b f (i + 1) (insInner less a i arr) else arr

/-- Go's `insertionSort_func(data, a, b)`. -/
def insertionSortGo {α : Type} [Inhabited α] (less : α → α → Bool) (a b : Nat)
    (arr : Array α) : Array α :=
  insOuter less a b (b + 1) (a + 1) arr

/-- The binary-search loop shared by `symMerge_func`'s three searches,
fuel-indexed (a fuel of `j + 1` dominates the iteration count): narrow
`[i, j)` with `h = (i + j) / 2`, moving `i` past `h` when the probe
succeeds. -/
def bsearchGo (pred : Nat → Bool) : Nat → Nat → Nat → Nat
  | 0, i, _ => i
  | f + 1, i, j =>
    if i < j then
      let h := (i + j) / 2
      if pred h then bsearchGo pred f (h + 1) j else bsearchGo pred f i h
    else i

/-- Go's `swapRange_func(data, a, b, n)`. -/
def swapRangeGo {α : Type} (arr : Array α) (a b n : Nat) : Array α :=
  (List.range n).foldl (fun acc k => aswap acc (a + k) (b + k)) arr

/-- The loop of Go's `rotate_func`, fuel-indexed; the fuel passed
dominates `i + j` so the gcd-style loop always finishes. -/
def rotateLoop {α : Type} (fuel : Nat) (arr : Array α) (m i j : Nat) : Array α :=
  match fuel with
  | 0 => swapRangeGo arr (m - i) m i
  | f + 1 =>
    if i ≠ j then
      if i > j then rotateLoop f (swapRangeGo arr (m - i) m j) m (i - j) j
      else rotateLoop f (swapRangeGo arr (m - i) (m + j - i) i) m i (j - i)
    else swapRangeGo arr (m - i) m i

/-- Go's `rotate_func(data, a, m, b)`. -/
def rotateGo {α : Type} (arr : Array α) (a m b : Nat) : Array α :=
  rotateLoop (b - a + 1) arr m (m - a) (b - m)

/-- Go's `symMerge_func(data, a, m, b)`, fuel-indexed for the
recursion depth (any fuel of at least `b - a + 1` suffices): merge the
sorted ranges `[a, m)` and `[m, b)` in place, with the two
single-element fast paths and the rotation-based divide and
conquer. -/
def symMergeGo {α : Type} [Inhabited α] (less : α → α → Bool) :
    Nat → Array α → Nat → Nat → Nat → Array α
  | 0, arr, _, _, _ => arr
  | fuel + 1, arr, a, m, b =>
    if m - a = 1 then
      let i := bsearchGo (fun h => less (aget arr h) (aget arr a)) (b + 1) m b
      (List.range (i - 1 - a)).foldl (fun acc k => aswap acc (a + k) (a + k + 1)) arr
    else if b - m = 1 then
      let i := bsearchGo (fun h => !(less (aget arr m) (aget arr h))) (m + 1) a m
      (List.range (m - i)).foldl (fun acc k => aswap acc (m - k) (m - k - 1)) arr
    else
      let mid := (a + b) / 2
      let n := mid + m
      let sr : Nat × Nat := if m > mid then (n - b, mid) else (a, m)
      let p := n - 1
      let start := bsearchGo (fun c => !(less (aget arr (p - c)) (aget arr c))) (sr.2 + 1) sr.1 sr.2
      let endd := n - start
      let arr1 := if start < m ∧ m < endd then rotateGo arr start m endd else arr
      let arr2 := if a < start ∧ start < mid then symMergeGo less fuel arr1 a start mid else arr1
      if mid < endd ∧ endd < b then symMergeGo less fuel arr2 mid endd b else arr2

/-- The first phase of Go's `stable_func`: insertion sort on blocks of
twenty, then on the final partial block. -/
def insBlocks {α : Type} [Inhabited α] (less : α → α → Bool) (n : Nat) :
    Nat → Nat → Nat → Array α → Array α
  | 0, a, _, arr => insertionSortGo less a n arr
  | f + 1, a, b, arr =>
    if b ≤ n then insBlocks less n f b (b + 20) (insertionSortGo less a b arr)
    else insertionSortGo less a n arr

/-- The inner merge loop of Go's `stable_func` for one block size:
merge adjacent block pairs, then the final partial pair when one
remains. -/
def mergePass {α : Type} [Inhabited α] (less : α → α → Bool) (n bs : Nat) :
    Nat → Nat → Nat → Array α → Array α
  | 0, a, _, arr => if a + bs < n then symMergeGo less (n + 1) arr a (a + bs) n else arr
  | f + 1, a, b, arr =>
    if b ≤ n then
      mergePass less n bs f b (b + 2 * bs) (symMergeGo less (n + 1) arr a (a + bs) b)
    else if a + bs < n then symMergeGo less (n + 1) arr a (a + bs) n
    else arr

/-- The outer merge loop of Go's `stable_func`: double the block size
until it covers the slice. -/
def mergeLoop {α : Type} [Inhabited α] (less : α → α → Bool) (n : Nat) :
    Nat → Nat → Array α → Array α
  | 0, _, arr => arr
  | f + 1, bs, arr =>
    if bs < n then mergeLoop less n f (bs * 2) (mergePass less n bs (n + 1) 0 (2 * bs) arr)
    else arr

/-- Go's `sort.SliceStable`: `stable_func` with block size twenty. -/
def sortSliceStable {α : Type} [Inhabited α] (less : α → α → Bool) (arr : Array α) :
    Array α :=
  let n := arr.size
  mergeLoop less n (n + 1) 20 (insBlocks less n (n + 21) 0 20 arr)

/-- The page comparator passed to `sort.SliceStable` in `Build`: true
whenever either page lacks a date, otherwise "not before", i.e.
descending by date. -/
def pageLess (p q : Page) : Bool :=
  if p.date.isNone || q.date.isNone then true
  else
    match p.date, q.date with
    | some d1, some d2 => !(dateBefore d1 d2)
    | _, _ => true

/-- The page sort performed by `Build` after collection and before any
page is written. -/
def sortPages (ps : Array Page) : Array Page := sortSliceStable pageLess ps

/-- C2 (evaluation of the code at the failing inputs).  The comparator
returns true whenever either page is dateless, so `sort.SliceStable`
treats a dateless page as sorting before everything: with discovery
order [dated 2021-01-01, dateless] the dateless page ends up first,
not last, and two dateless pages discovered in order B then C come out
as C then B — both contrary to the "pushed to the end, stable among
dateless" description in the code's own comment and in the spec. -/
theorem sortPages_dateless_first :
    (sortPages #[{ title := "A", date := some ⟨2021, 1, 1⟩ }, { title := "B" }]).map Page.title
        = #["B", "A"] ∧
      (sortPages #[{ title := "B" }, { title := "C" }]).map Page.title = #["C", "B"] :=
  ⟨by decide, by decide⟩

/-! ### C5: the debounced rebuild loop in `Serve`

`Serve` wires a `debouncer` with a 250ms window to a `rebuild`
function that calls `Build`.  `debouncer.Do` (under its mutex) stops
the stored timer, if any, and stores a fresh `time.AfterFunc` timer,
so at most one timer is ever pending; when the timer fires, Go runs
the rebuild function on a new goroutine, with nothing serializing it
against a rebuild already in progress.  The transition system below
models exactly these three atomic happenings:

* `event` — a watcher event passes `shouldRebuild` and the loop calls
  `debouncer.Do()`: the stored timer is stopped and replaced, leaving
  exactly one pending timer and starting no rebuild;
* `fire` — the pending timer fires: the timer is consumed and the
  rebuild function starts running on its own goroutine;
* `finish` — a running `Build` call returns. -/

/-- State of the dev server's debounce-and-rebuild machinery: whether
the stored debounce timer is pending, and how many rebuild executions
are in progress. -/
structure DevState where
  timerPending : Bool
  rebuildsRunning : Nat
deriving Repr, DecidableEq

/-- The atomic transitions of the debounced rebuild loop. -/
inductive DevStep : DevState → DevState → Prop
  | event (s : DevState) : DevStep s ⟨true, s.rebuildsRunning⟩
  | fire (s : DevState) (h : s.timerPending = true) :
      DevStep s ⟨false, s.rebuildsRunning + 1⟩
  | finish (s : DevState) (h : s.rebuildsRunning ≠ 0) :
      DevStep s ⟨s.timerPending, s.rebuildsRunning - 1⟩

/-- States reachable from the initial state (no timer, no rebuild
running). -/
inductive DevReach : DevState → Prop
  | init : DevReach ⟨false, 0⟩
  | step {s t : DevState} : DevReach s → DevStep s t → DevReach t

/-- A state with two rebuilds in progress is reachable: event, fire (a
slow build starts), event during the build, fire again. -/
theorem devReach_two : DevReach ⟨false, 2⟩ := by
  have h0 : DevReach ⟨false, 0⟩ := DevReach.init
  have h1 : DevReach ⟨true, 0⟩ := h0.step (DevStep.event _)
  have h2 : DevReach ⟨false, 1⟩ := h1.step (DevStep.fire _ rfl)
  have h3 : DevReach ⟨true, 1⟩ := h2.step (DevStep.event _)
  exact h3.step (DevStep.fire _ rfl)

/-- C5 (amended).  Rebuilds start only when the single pending timer
fires, and the fire consumes the timer — so a further qualifying event
indeed only reschedules and never starts a rebuild by itself.  But a
timer fire does not wait for a rebuild already in progress: a state
with two concurrent rebuild executions is reachable, so the debounce
mechanism does not serialize rebuilds. -/
theorem debounce_amended :
    (∀ s t : DevState, DevStep s t → s.rebuildsRunning < t.rebuildsRunning →
        s.timerPending = true ∧ t.timerPending = false ∧
          t.rebuildsRunning = s.rebuildsRunning + 1) ∧
      (∃ s : DevState, DevReach s ∧ 2 ≤ s.rebuildsRunning) := by
  constructor
  · intro s t hst hlt
    cases hst with
    | event => exact absurd hlt (by simp)
    | fire h => exact ⟨h, rfl, rfl⟩
    | finish h => exact absurd hlt (by simp)
  · exact ⟨⟨false, 2⟩, devReach_two, by decide⟩

/-- Concrete instance of the C5 amended theorem: a fire step from one
pending timer and no running rebuild produces exactly one rebuild and
consumes the timer. -/
theorem debounce_amended_witness :
    (⟨true, 0⟩ : DevState).timerPending = true ∧
      (⟨false, 1⟩ : DevState).timerPending = false ∧
      (⟨false, 1⟩ : DevState).rebuildsRunning = (⟨true, 0⟩ : DevState).rebuildsRunning + 1 :=
  debounce_amended.1 ⟨true, 0⟩ ⟨false, 1⟩ (DevStep.fire _ rfl) (by decide)

/-- C5 counterexample.  The claim says a timer fire never causes a
second rebuild to run concurrently with one in progress; but the state
with two running rebuilds is reachable (a qualifying event and fire
during a build that outlasts the 250ms window), refuting the claimed
invariant. -/
theorem debounce_concurrent_rebuild_counterexample :
    DevReach ⟨false, 2⟩ ∧ ¬(∀ s : DevState, DevReach s → s.rebuildsRunning ≤ 1) :=
  ⟨devReach_two, fun h => by have := h _ devReach_two; exact absurd this (by decide)⟩

/-! ### C6 and C10: the dev server's static handler

`staticHandler.ServeHTTP` serves the output directory: `/` is
rewritten to `//index.html`, the path is cleaned and its leading slash
trimmed, then `<path>.html` is preferred whenever `fs.Stat` succeeds
on it (file or directory), and finally a missing path or a directory
target is answered by `serveNotFound`, which serves `404.html` with
status 404 when present and a generic not-found response otherwise.
The model below represents the output tree as finite lists of files
and directories; `fs.Stat` name-validity errors (HTTP 500) cannot
arise for the tree paths modeled here, and `404.html` is taken to be a
regular file when present, as build outputs always are. -/

/-- The output tree the dev server serves: regular files with their
contents, and directories. -/
structure OutFS where
  files : List (String × String) := []
  dirs : List String := []

/-- Result of `fs.Stat` on the output tree. -/
inductive StatRes where
  | file (content : String)
  | dir
  | notExist
deriving DecidableEq, Repr

/-- Looks up a regular file's content. -/
def statFile (fs : OutFS) (p : String) : Option String :=
  (fs.files.find? (fun e => e.1 = p)).map (·.2)

/-- The `fs.Stat` call of the handler: a file, a directory, or
`fs.ErrNotExist`. -/
def fsStat (fs : OutFS) (p : String) : StatRes :=
  match statFile fs p with
  | some c => StatRes.file c
  | none => if fs.dirs.contains p then StatRes.dir else StatRes.notExist

/-- A response of the handler: a 200 with the served file's content,
or a 404 carrying the content of `404.html` when that file exists and
nothing otherwise (the generic not-found response). -/
inductive HttpResponse where
  | ok (content : String)
  | notFound (body : Option String)
deriving DecidableEq, Repr

/-- The `serveNotFound` helper: HTTP 404 with the body of `404.html`
when present, else the generic not-found response. -/
def serveNotFound (fs : OutFS) : HttpResponse :=
  HttpResponse.notFound (statFile fs "404.html")

/-- Serving of the finally resolved path: the file's content, with
directories and missing paths both going to `serveNotFound`. -/
def serveStat (fs : OutFS) (p2 : String) : HttpResponse :=
  match fsStat fs p2 with
  | StatRes.notExist => serveNotFound fs
  | StatRes.dir => serveNotFound fs
  | StatRes.file c => HttpResponse.ok c

/-- The tail of `ServeHTTP` after the path has been cleaned and its
leading slash trimmed: prefer `p + ".html"` whenever `fs.Stat`
succeeds on it, then serve the result. -/
def serveResolved (fs : OutFS) (p1 : String) : HttpResponse :=
  serveStat fs (if fsStat fs (p1 ++ ".html") ≠ StatRes.notExist then p1 ++ ".html" else p1)

/-- Translation of `staticHandler.ServeHTTP`: rewrite `/` to
`//index.html`, clean the path, trim the leading slash and resolve. -/
def serveHTTP (fs : OutFS) (reqPath : String) : HttpResponse :=
  let p0 := if reqPath = "/" then reqPath ++ "/index.html" else reqPath
  serveResolved fs (goTrimPre (pathClean p0) "/")

/-- Trimming the leading slash of a slash-prefixed path returns the
rest. -/
theorem goTrimPre_slash (q : String) : goTrimPre ("/" ++ q) "/" = q := by
  obtain ⟨l⟩ := q
  unfold goTrimPre dropPreL
  simp [String.data_append]

/-- A slash-prefixed path with a non-empty rest is not the root
path. -/
theorem slash_append_ne_root (q : String) (hq : q ≠ "") : ("/" ++ q : String) ≠ "/" := by
  intro h
  apply hq
  obtain ⟨l⟩ := q
  have hd := congrArg String.data h
  simp [String.data_append] at hd
  simpa using congrArg String.mk hd

/-- A stat result is a file with content `c` exactly when the file
lookup returns `c`. -/
theorem fsStat_file_iff (fs : OutFS) (p : String) (c : String) :
    fsStat fs p = StatRes.file c ↔ statFile fs p = some c := by
  unfold fsStat
  cases hs : statFile fs p with
  | some c' => simp
  | none =>
    split
    · simp_all
    · constructor
      · intro h
        split at h <;> exact absurd h (fun hh => StatRes.noConfusion hh)
      · intro h
        exact absurd h (fun hh => Option.noConfusion hh)

/-- On a non-root request the handler resolves the cleaned,
slash-trimmed path. -/
theorem serveHTTP_ne_root (fs : OutFS) (q : String) (hq : q ≠ "")
    (hcl : pathClean ("/" ++ q) = "/" ++ q) :
    serveHTTP fs ("/" ++ q) = serveResolved fs q := by
  unfold serveHTTP
  rw [if_neg (slash_append_ne_root q hq)]
  show serveResolved fs (goTrimPre (pathClean ("/" ++ q)) "/") = serveResolved fs q
  rw [hcl, goTrimPre_slash]

/-- The root request resolves to `index.html`. -/
theorem serveHTTP_root (fs : OutFS) : serveHTTP fs "/" = serveResolved fs "index.html" := by
  unfold serveHTTP
  rw [if_pos rfl]
  show serveResolved fs (goTrimPre (pathClean ("/" ++ "/index.html")) "/") = _
  rw [show goTrimPre (pathClean ("/" ++ "/index.html")) "/" = "index.html" from by decide]

/-- C10.  The `.html` fallback applies to every request path and takes
priority over the literal path: whenever the output tree contains a
regular file `q + ".html"`, a request for `/q` serves that file's
content — regardless of whether `q` itself exists as a file or
directory, and regardless of whether `q` already has an extension. -/
theorem serveHTTP_html_priority (fs : OutFS) (q c : String) (hq : q ≠ "")
    (hcl : pathClean ("/" ++ q) = "/" ++ q)
    (hfile : fsStat fs (q ++ ".html") = StatRes.file c) :
    serveHTTP fs ("/" ++ q) = HttpResponse.ok c := by
  rw [serveHTTP_ne_root fs q hq hcl]
  unfold serveResolved
  rw [if_pos (by rw [hfile]; exact fun h => StatRes.noConfusion h)]
  unfold serveStat
  rw [hfile]

/-- An output tree with a directory and a file both shadowed by
`.html` fallbacks, for the C10 instance. -/
def fallbackDemoFS : OutFS :=
  { files := [("watched.html", "W"), ("style.css", "S"), ("style.css.html", "H")],
    dirs := ["watched", "icons"] }

/-- Concrete instance of the C10 theorem: with both a directory
`watched` and a file `watched.html` present, and `watched` carrying an
extensionless name, the request `/watched` serves `watched.html`; the
fallback also fires for `/style.css`, a path with an extension that
itself exists as a file, because `style.css.html` exists. -/
theorem serveHTTP_html_priority_witness :
    serveHTTP fallbackDemoFS "/watched" = HttpResponse.ok "W" ∧
      serveHTTP fallbackDemoFS "/style.css" = HttpResponse.ok "H" :=
  ⟨serveHTTP_html_priority _ "watched" "W" (by decide) (by decide) (by decide),
    serveHTTP_html_priority _ "style.css" "H" (by decide) (by decide) (by decide)⟩

/-- C6.  The handler's behaviour: `/` serves the content of
`index.html` (when no `index.html.html` shadows it); an extensionless
path `/q` serves `q.html` when that file exists, before falling back
to the literal path; a request resolving to a directory or to a
missing path answers 404 with the body of `404.html` when that file
exists and a generic not-found response otherwise; and every 200
response carries the content of some file of the output tree, so no
directory listing is ever produced. -/
theorem staticHandler_spec (fs : OutFS) :
    (∀ c : String, statFile fs "index.html" = some c →
        fsStat fs "index.html.html" = StatRes.notExist →
        serveHTTP fs "/" = HttpResponse.ok c) ∧
      (∀ q c : String, q ≠ "" → pathClean ("/" ++ q) = "/" ++ q →
        filepathExt q = "" →
        fsStat fs (q ++ ".html") = StatRes.file c →
        serveHTTP fs ("/" ++ q) = HttpResponse.ok c) ∧
      (∀ q : String, q ≠ "" → pathClean ("/" ++ q) = "/" ++ q →
        fsStat fs (q ++ ".html") = StatRes.notExist →
        (fsStat fs q = StatRes.dir ∨ fsStat fs q = StatRes.notExist) →
        serveHTTP fs ("/" ++ q) = HttpResponse.notFound (statFile fs "404.html")) ∧
      (∀ req c : String, serveHTTP fs req = HttpResponse.ok c →
        ∃ name : String, statFile fs name = some c) := by
  have hstat : ∀ p2 c : String, serveStat fs p2 = HttpResponse.ok c →
      statFile fs p2 = some c := by
    intro p2 c h
    unfold serveStat at h
    cases hs : fsStat fs p2 with
    | file c' =>
      rw [hs] at h
      injection h with h
      subst h
      exact (fsStat_file_iff fs p2 c').mp hs
    | dir =>
      rw [hs] at h
      exact absurd h (fun hh => HttpResponse.noConfusion hh)
    | notExist =>
      rw [hs] at h
      exact absurd h (fun hh => HttpResponse.noConfusion hh)
  refine ⟨?_, ?_, ?_, ?_⟩
  · intro c hidx hshadow
    rw [serveHTTP_root fs]
    unfold serveResolved
    rw [show ("index.html" ++ ".html" : String) = "index.html.html" from rfl]
    rw [if_neg (by rw [hshadow]; simp)]
    unfold serveStat
    rw [(fsStat_file_iff fs "index.html" c).mpr hidx]
  · intro q c hq hcl _ hfile
    rw [serveHTTP_ne_root fs q hq hcl]
    unfold serveResolved
    rw [if_pos (by rw [hfile]; exact fun h => StatRes.noConfusion h)]
    unfold serveStat
    rw [hfile]
  · intro q hq hcl hnof hdir
    rw [serveHTTP_ne_root fs q hq hcl]
    unfold serveResolved
    rw [if_neg (by rw [hnof]; simp)]
    unfold serveStat
    cases hdir with
    | inl h => rw [h]; rfl
    | inr h => rw [h]; rfl
  · intro req c h
    unfold serveHTTP serveResolved at h
    exact ⟨_, hstat _ c h⟩

/-- An output tree with an index page, a content page, a custom 404
page and an asset directory, for the C6 instances. -/
def handlerDemoFS : OutFS :=
  { files := [("index.html", "I"), ("watched.html", "W"), ("404.html", "N")],
    dirs := ["icons"] }

/-- Concrete instances of the C6 bullets on a small output tree:
`/` serves `index.html`, `/watched` serves `watched.html`, a directory
request `/icons` yields 404 with the custom page, and a missing path
`/nope` yields the same. -/
theorem staticHandler_spec_witness :
    serveHTTP handlerDemoFS "/" = HttpResponse.ok "I" ∧
      serveHTTP handlerDemoFS "/watched" = HttpResponse.ok "W" ∧
      serveHTTP handlerDemoFS "/icons" = HttpResponse.notFound (some "N") ∧
      serveHTTP handlerDemoFS "/nope" = HttpResponse.notFound (some "N") := by
  refine ⟨(staticHandler_spec _).1 "I" (by decide) (by decide), ?_, ?_, ?_⟩
  · exact (staticHandler_spec _).2.1 "watched" "W" (by decide) (by decide) (by decide) (by decide)
  · exact ((staticHandler_spec _).2.2.1 "icons" (by decide) (by decide) (by decide)
      (Or.inl (by decide))).trans (by decide)
  · exact ((staticHandler_spec _).2.2.1 "nope" (by decide) (by decide) (by decide)
      (Or.inr (by decide))).trans (by decide)

/-! ### C8: static-asset fingerprinting

`buildContext.hashStatic` reads each static file, computes
`sha256.Sum256` of its bytes, hex-encodes the digest and records

  b.static["/"+rel] = "/" + formatStaticName(rel, hashhex)

The SHA-256 compression function is translated below over `Nat` with
explicit 32-bit reductions, and `formatStaticName` with its
first-dot insertion rule. -/

/-- The 32-bit modulus. -/
def w32mod : Nat := 4294967296

/-- Right rotation of a 32-bit word. -/
def rotr32 (x n : Nat) : Nat := ((x >>> n) ||| (x <<< (32 - n))) % w32mod

/-- The SHA-256 round constants. -/
def sha256K : List Nat :=
  [1116352408, 1899447441, 3049323471, 3921009573, 961987163, 1508970993, 2453635748, 2870763221,
   3624381080, 310598401, 607225278, 1426881987, 1925078388, 2162078206, 2614888103, 3248222580,
   3835390401, 4022224774, 264347078, 604807628, 770255983, 1249150122, 1555081692, 1996064986,
   2554220882, 2821834349, 2952996808, 3210313671, 3336571891, 3584528711, 113926993, 338241895,
   666307205, 773529912, 1294757372, 1396182291, 1695183700, 1986661051, 2177026350, 2456956037,
   2730485921, 2820302411, 3259730800, 3345764771, 3516065817, 3600352804, 4094571909, 275423344,
   430227734, 506948616, 659060556, 883997877, 958139571, 1322822218, 1537002063, 1747873779,
   1955562222, 2024104815, 2227730452, 2361852424, 2428436474, 2756734187, 3204031479, 3329325298]

/-- The eight-word SHA-256 state. -/
structure Sha256St where
  a : Nat
  b : Nat
  c : Nat
  d : Nat
  e : Nat
  f : Nat
  g : Nat
  h : Nat
deriving Repr, DecidableEq

/-- The SHA-256 initial state. -/
def sha256H0 : Sha256St :=
  ⟨1779033703, 3144134277, 1013904242, 2773480762, 1359893119, 2600822924, 528734635, 1541459225⟩

/-- Lower sigma-zero message-schedule function. -/
def ssig0 (x : Nat) : Nat := (rotr32 x 7) ^^^ (rotr32 x 18) ^^^ (x >>> 3)

/-- Lower sigma-one message-schedule function. -/
def ssig1 (x : Nat) : Nat := (rotr32 x 17) ^^^ (rotr32 x 19) ^^^ (x >>> 10)

/-- Upper sigma-zero compression function. -/
def bsig0 (x : Nat) : Nat := (rotr32 x 2) ^^^ (rotr32 x 13) ^^^ (rotr32 x 22)

/-- Upper sigma-one compression function. -/
def bsig1 (x : Nat) : Nat := (rotr32 x 6) ^^^ (rotr32 x 11) ^^^ (rotr32 x 25)

/-- A 32-bit big-endian word from four bytes. -/
def wordOfBytes (b0 b1 b2 b3 : Nat) : Nat := ((b0 * 256 + b1) * 256 + b2) * 256 + b3

/-- Big-endian bytes of a 32-bit word. -/
def beBytes4 (n : Nat) : List Nat :=
  [n / 16777216 % 256, n / 65536 % 256, n / 256 % 256, n % 256]

/-- Big-endian eight-byte encoding of the bit length. -/
def beBytes8 (n : Nat) : List Nat :=
  beBytes4 (n / w32mod) ++ beBytes4 (n % w32mod)

/-- SHA-256 padding: a `0x80` byte, zeros to 56 mod 64, and the
message bit length as eight big-endian bytes. -/
def sha256Pad (msg : List Nat) : List Nat :=
  let l := msg.length
  let zeros := (64 - ((l + 9) % 64)) % 64
  msg ++ [128] ++ List.replicate zeros 0 ++ beBytes8 (8 * l)

/-- The sixteen big-endian words of a 64-byte block. -/
def blockWords : List Nat → List Nat
  | b0 :: b1 :: b2 :: b3 :: rest => wordOfBytes b0 b1 b2 b3 :: blockWords rest
  | _ => []

/-- The padded message split into 64-byte blocks, fuel-indexed (the
message length dominates the block count). -/
def chunks64 : Nat → List Nat → List (List Nat)
  | 0, _ => []
  | _ + 1, [] => []
  | f + 1, l => l.take 64 :: chunks64 f (l.drop 64)

/-- The 64-entry message schedule of a block. -/
def sha256Schedule (block : List Nat) : Array Nat :=
  (List.range 48).foldl
    (fun w i =>
      w.push ((ssig1 (aget w (i + 14)) + aget w (i + 9) + ssig0 (aget w (i + 1)) + aget w i) %
        w32mod))
    (blockWords block).toArray

/-- One SHA-256 round. -/
def sha256Round (w : Array Nat) (st : Sha256St) (t : Nat) : Sha256St :=
  let ch := (st.e &&& st.f) ^^^ ((st.e ^^^ (w32mod - 1)) &&& st.g)
  let maj := (st.a &&& st.b) ^^^ (st.a &&& st.c) ^^^ (st.b &&& st.c)
  let t1 := (st.h + bsig1 st.e + ch + (sha256K.getD t 0) + aget w t) % w32mod
  let t2 := (bsig0 st.a + maj) % w32mod
  ⟨(t1 + t2) % w32mod, st.a, st.b, st.c, (st.d + t1) % w32mod, st.e, st.f, st.g⟩

/-- The SHA-256 compression of one block into the running state. -/
def sha256Compress (h : Sha256St) (block : List Nat) : Sha256St :=
  let w := sha256Schedule block
  let st := (List.range 64).foldl (sha256Round w) h
  ⟨(h.a + st.a) % w32mod, (h.b + st.b) % w32mod, (h.c + st.c) % w32mod, (h.d + st.d) % w32mod,
    (h.e + st.e) % w32mod, (h.f + st.f) % w32mod, (h.g + st.g) % w32mod, (h.h + st.h) % w32mod⟩

/-- The SHA-256 digest of a byte sequence, as 32 bytes. -/
def sha256Bytes (msg : List Nat) : List Nat :=
  let padded := sha256Pad msg
  let fin := (chunks64 padded.length padded).foldl sha256Compress sha256H0
  [fin.a, fin.b, fin.c, fin.d, fin.e, fin.f, fin.g, fin.h].flatMap beBytes4

/-- A lower-case hexadecimal digit. -/
def hexDigit (n : Nat) : Char :=
  if n < 10 then Char.ofNat (48 + n) else Char.ofNat (87 + n)

/-- The hex encoding of the SHA-256 digest, as `hex.EncodeToString`
produces it. -/
def sha256hex (msg : List Nat) : String :=
  ⟨(sha256Bytes msg).flatMap (fun b => [hexDigit (b / 16), hexDigit (b % 16)])⟩

/-- Go `path.Split` on character lists: everything through the final
slash, and the base name after it. -/
def pathSplitGo (p : List Char) : List Char × List Char :=
  let base := (p.reverse.takeWhile (· ≠ '/')).reverse
  (p.take (p.length - base.length), base)

/-- Go `path.Join` of two elements: non-empty elements joined with a
slash and cleaned; all-empty input gives the empty string. -/
def pathJoin2 (a b : String) : String :=
  if a = "" ∧ b = "" then ""
  else if a = "" then pathClean b
  else if b = "" then pathClean a
  else pathClean (a ++ "/" ++ b)

/-- The base-name rewrite of `formatStaticName`: `-<hash>` inserted at
the first dot (Go's `strings.Index(base, ".")` with slicing), or
appended when the base has no dot. -/
def formatStaticBase (base : List Char) (hash : String) : List Char :=
  if (base.takeWhile (· ≠ '.')).length = base.length then base ++ '-' :: hash.data
  else
    base.takeWhile (· ≠ '.') ++ '-' ::
      (hash.data ++ base.drop (base.takeWhile (· ≠ '.')).length)

/-- Translation of `formatStaticName`: empty file names and hashes
pass through, and otherwise the base-name rewrite is applied and the
result re-joined with the directory part. -/
def formatStaticName (filename hash : String) : String :=
  if filename = "" then ""
  else if hash = "" then filename
  else
    pathJoin2 ⟨(pathSplitGo filename.data).1⟩
      ⟨formatStaticBase (pathSplitGo filename.data).2 hash⟩

/-- Go `strings.Contains` on character lists. -/
def containsSubL (s sub : List Char) : Bool :=
  if sub.isPrefixOf s then true
  else
    match s with
    | [] => false
    | _ :: rest => containsSubL rest sub

/-- Go `strings.Contains`. -/
def goContains (s sub : String) : Bool := containsSubL s.data sub.data

/-- The ignore rule `isIgnorable` of `site.go`: Vim backups and
`.gitignore` artifacts. -/
def isIgnorable (path : String) : Bool :=
  goHasSuffix path "~" || goContains path ".gitignore"

/-- The skip-fingerprint list `skipHashing` of `site.go`. -/
def skipHashing : List String := ["robots.txt"]

/-- The static-map entry recorded by `hashStatic` for one static file,
given its path relative to the static root and its bytes:
`"/"+rel ↦ "/"+formatStaticName(rel, hex(sha256(bytes)))`. -/
def hashStaticEntry (rel : String) (content : List Nat) : String × String :=
  ("/" ++ rel, "/" ++ formatStaticName rel (sha256hex content))

/-- The full hash pass of `hashStatic` over the walked static files in
walk order (paths are taken relative to the static root, on which the
ignore and skip rules of the Go code match the same files). -/
def hashStaticMap (files : List (String × List Nat)) : List (String × String) :=
  files.foldl
    (fun acc f =>
      if isIgnorable f.1 then acc
      else if skipHashing.any (fun skip => goContains f.1 skip) then acc
      else acc ++ [hashStaticEntry f.1 f.2])
    []

/-- Follows the spec's words, for comparison with the code: the
fingerprinted name per the claim inserts `-<hash>` before the file's
extension — the suffix starting at the final dot — or appends it when
there is none. -/
def formatStaticNameSpec (filename hash : String) : String :=
  let ext := filepathExt filename
  if ext = "" then filename ++ "-" ++ hash
  else ⟨filename.data.take (filename.data.length - ext.data.length)⟩ ++ "-" ++ hash ++ ext

/-! #### Path lemmas for the fingerprinting theorem -/

/-- A take-while over elements that all satisfy the predicate returns
the whole list. -/
theorem takeWhile_all {p : Char → Bool} (l : List Char) (h : ∀ c ∈ l, p c = true) :
    l.takeWhile p = l := by
  induction l with
  | nil => rfl
  | cons x xs ih =>
    rw [List.takeWhile_cons, if_pos (h x (by simp))]
    rw [ih (fun c hc => h c (by simp [hc]))]

/-- A take-while stops exactly at the first failing element. -/
theorem takeWhile_stop {p : Char → Bool} (l1 : List Char) (x : Char) (l2 : List Char)
    (h1 : ∀ c ∈ l1, p c = true) (hx : p x = false) :
    (l1 ++ x :: l2).takeWhile p = l1 := by
  induction l1 with
  | nil => simpa [List.takeWhile_cons] using hx
  | cons y ys ih =>
    rw [List.cons_append, List.takeWhile_cons, if_pos (h1 y (by simp))]
    rw [ih (fun c hc => h1 c (by simp [hc]))]

/-- Splitting a list without the separator gives one segment. -/
theorem splitOnChar_no (c : Char) (l : List Char) (h : c ∉ l) :
    splitOnChar c l = [l] := by
  induction l with
  | nil => rfl
  | cons x xs ih =>
    unfold splitOnChar
    rw [ih (fun hm => h (by simp [hm]))]
    rw [if_neg (by intro hh; exact h (by simp [hh]))]

/-- Splitting a list with exactly one separator gives two segments. -/
theorem splitOnChar_two (c : Char) (a b : List Char) (ha : c ∉ a) (hb : c ∉ b) :
    splitOnChar c (a ++ c :: b) = [a, b] := by
  induction a with
  | nil =>
    rw [List.nil_append]
    unfold splitOnChar
    simp [splitOnChar_no c b hb]
  | cons x xs ih =>
    rw [List.cons_append]
    unfold splitOnChar
    rw [ih (fun hm => ha (by simp [hm]))]
    simp [show ¬ x = c from fun hh => ha (by simp [hh])]

/-- A path segment that cleaning passes through untouched: non-empty,
slash-free and not a dot element. -/
def plainSeg (s : List Char) : Prop :=
  s ≠ [] ∧ '/' ∉ s ∧ s ≠ ['.'] ∧ s ≠ ['.', '.']

/-- Cleaning a single plain segment changes nothing. -/
theorem pathClean_single (s : List Char) (h : plainSeg s) : pathCleanL s = s := by
  obtain ⟨h1, h2, h3, h4⟩ := h
  unfold pathCleanL
  rw [if_neg h1]
  rw [splitOnChar_no '/' s h2]
  have hr : (decide (s.head? = some '/')) = false := by
    cases s with
    | nil => exact absurd rfl h1
    | cons x xs =>
      simp only [List.head?, decide_eq_false_iff_not]
      intro hh
      injection hh with hh
      exact h2 (by simp [hh])
  rw [hr]
  simp [cleanSegs, h1, h3, h4]

/-- Cleaning a path of two plain segments changes nothing. -/
theorem pathClean_two (a b : List Char) (ha : plainSeg a) (hb : plainSeg b) :
    pathCleanL (a ++ '/' :: b) = a ++ '/' :: b := by
  obtain ⟨ha1, ha2, ha3, ha4⟩ := ha
  obtain ⟨hb1, hb2, hb3, hb4⟩ := hb
  unfold pathCleanL
  rw [if_neg (by simp [ha1])]
  rw [splitOnChar_two '/' a b ha2 hb2]
  have hr : (decide ((a ++ '/' :: b).head? = some '/')) = false := by
    cases a with
    | nil => exact absurd rfl ha1
    | cons x xs =>
      simp only [List.cons_append, List.head?, decide_eq_false_iff_not]
      intro hh
      injection hh with hh
      exact ha2 (by simp [hh])
  rw [hr]
  simp [cleanSegs, ha1, ha3, ha4, hb1, hb3, hb4]

/-- Splitting at a separator after a separator-free head yields that
head as one segment followed by the split of the rest. -/
theorem splitOnChar_sep (c : Char) (a rest : List Char) (ha : c ∉ a) :
    splitOnChar c (a ++ c :: rest) = a :: splitOnChar c rest := by
  induction a with
  | nil =>
    rw [List.nil_append]
    conv_lhs => unfold splitOnChar
    simp
  | cons x xs ih =>
    rw [List.cons_append]
    conv_lhs => unfold splitOnChar
    rw [ih (fun hm => ha (by simp [hm]))]
    simp [show ¬ x = c from fun hh => ha (by simp [hh])]

/-- Cleaning a two-segment path with a doubled slash collapses the
slashes and changes nothing else. -/
theorem pathClean_dir_double (d b : List Char) (hd : plainSeg d) (hb : plainSeg b) :
    pathCleanL (d ++ '/' :: '/' :: b) = d ++ '/' :: b := by
  obtain ⟨hd1, hd2, hd3, hd4⟩ := hd
  obtain ⟨hb1, hb2, hb3, hb4⟩ := hb
  unfold pathCleanL
  rw [if_neg (by simp [hd1])]
  rw [splitOnChar_sep '/' d ('/' :: b) hd2]
  rw [show splitOnChar '/' ('/' :: b) = [[], b] from by
    have h := splitOnChar_sep '/' [] b (by simp)
    rw [List.nil_append] at h
    rw [h, splitOnChar_no '/' b hb2]]
  have hr : (decide ((d ++ '/' :: '/' :: b).head? = some '/')) = false := by
    cases d with
    | nil => exact absurd rfl hd1
    | cons x xs =>
      simp only [List.cons_append, List.head?, decide_eq_false_iff_not]
      intro hh
      injection hh with hh
      exact hd2 (by simp [hh])
  rw [hr]
  simp [cleanSegs, hd1, hd3, hd4, hb1, hb3, hb4]

/-- Splitting a slash-free path gives an empty directory and the path
itself as base. -/
theorem pathSplit_noslash (s : List Char) (h : '/' ∉ s) : pathSplitGo s = ([], s) := by
  unfold pathSplitGo
  have hbase : (s.reverse.takeWhile (· ≠ '/')).reverse = s := by
    rw [takeWhile_all s.reverse (by intro c hc; simp; intro hh; subst hh; simp at hc; exact h hc)]
    exact s.reverse_reverse
  rw [hbase]
  simp

/-- Splitting a path with exactly one slash gives the directory with
its trailing slash and the base. -/
theorem pathSplit_onedir (d b : List Char) (hb : '/' ∉ b) :
    pathSplitGo (d ++ '/' :: b) = (d ++ ['/'], b) := by
  unfold pathSplitGo
  have hbase : ((d ++ '/' :: b).reverse.takeWhile (· ≠ '/')).reverse = b := by
    rw [show (d ++ '/' :: b).reverse = b.reverse ++ '/' :: d.reverse by simp]
    rw [takeWhile_stop b.reverse '/' d.reverse
      (by intro c hc; simp; intro hh; subst hh; simp at hc; exact hb hc) (by simp)]
    exact b.reverse_reverse
  rw [hbase]
  show (List.take ((d ++ '/' :: b).length - b.length) (d ++ '/' :: b), b) = (d ++ ['/'], b)
  have hlen : (d ++ '/' :: b).length - b.length = d.length + 1 := by simp; omega
  rw [hlen]
  rw [show d ++ '/' :: b = (d ++ ['/']) ++ b by simp]
  rw [show d.length + 1 = (d ++ ['/']).length by simp]
  rw [List.take_left]

/-! #### Digest-character lemmas and the fingerprinting theorems -/

/-- Every byte emitted by the big-endian encoders is below 256. -/
theorem mem_flatMap_beBytes4 (l : List Nat) : ∀ b ∈ l.flatMap beBytes4, b < 256 := by
  intro b hb
  rcases List.mem_flatMap.mp hb with ⟨w, _, hw⟩
  simp only [beBytes4, List.mem_cons, List.not_mem_nil, or_false] at hw
  rcases hw with rfl | rfl | rfl | rfl <;> omega

/-- A hexadecimal digit is never a slash. -/
theorem hexDigit_ne_slash (k : Nat) (hk : k < 16) : hexDigit k ≠ '/' := by
  have h : ∀ k : Nat, k < 16 → hexDigit k ≠ '/' := by decide
  exact h k hk

/-- The hex digest contains no slash. -/
theorem sha256hex_no_slash (msg : List Nat) : '/' ∉ (sha256hex msg).data := by
  intro hm
  unfold sha256hex at hm
  rcases List.mem_flatMap.mp hm with ⟨b, hb, hc⟩
  have hblt : b < 256 := by
    unfold sha256Bytes at hb
    exact mem_flatMap_beBytes4 _ b hb
  simp only [List.mem_cons, List.not_mem_nil, or_false] at hc
  rcases hc with hc | hc
  · exact hexDigit_ne_slash (b / 16) (by omega) hc.symm
  · exact hexDigit_ne_slash (b % 16) (by omega) hc.symm

/-- The hex digest is never empty. -/
theorem sha256hex_ne_empty (msg : List Nat) : sha256hex msg ≠ "" := by
  intro h
  have hd := congrArg String.data h
  simp [sha256hex, sha256Bytes, beBytes4] at hd

/-- The hex digest has at least one character. -/
theorem sha256hex_data_ne (msg : List Nat) : (sha256hex msg).data ≠ [] := by
  intro h
  exact sha256hex_ne_empty msg (congrArg String.mk h)

/-- A slash-free character list of length at least three is a plain
path segment. -/
theorem plainSeg_of (s : List Char) (h2 : '/' ∉ s) (h3 : 3 ≤ s.length) : plainSeg s := by
  refine ⟨?_, h2, ?_, ?_⟩
  · intro hh; rw [hh] at h3; simp at h3
  · intro hh; rw [hh] at h3; simp at h3
  · intro hh; rw [hh] at h3; simp at h3

/-- A non-empty character list yields a non-empty string. -/
theorem strMk_ne_empty (l : List Char) (h : l ≠ []) : (⟨l⟩ : String) ≠ "" :=
  fun hh => h (congrArg String.data hh)

/-- The base rewrite appends the hash when the base has no dot. -/
theorem formatStaticBase_nodot (base : List Char) (hash : String) (h : '.' ∉ base) :
    formatStaticBase base hash = base ++ '-' :: hash.data := by
  unfold formatStaticBase
  rw [takeWhile_all base (by intro c hc; simp; intro hh; rw [hh] at hc; exact h hc)]
  rw [if_pos rfl]

/-- The base rewrite inserts the hash before the first dot. -/
theorem formatStaticBase_dot (pre suf : List Char) (hash : String) (h : '.' ∉ pre) :
    formatStaticBase (pre ++ '.' :: suf) hash =
      pre ++ '-' :: (hash.data ++ '.' :: suf) := by
  unfold formatStaticBase
  rw [takeWhile_stop pre '.' suf
    (by intro c hc; simp; intro hh; rw [hh] at hc; exact h hc) (by simp)]
  rw [if_neg (by simp)]
  rw [List.drop_left]

/-- Joining an empty directory just cleans the base. -/
theorem pathJoin2_empty_left (b : List Char) (hb : b ≠ []) :
    pathJoin2 ⟨[]⟩ ⟨b⟩ = pathClean ⟨b⟩ := by
  unfold pathJoin2
  rw [if_neg (fun hh => strMk_ne_empty b hb hh.2)]
  rw [if_pos rfl]

/-- Joining two non-empty parts cleans their slash join. -/
theorem pathJoin2_both (a b : List Char) (ha : a ≠ []) (hb : b ≠ []) :
    pathJoin2 ⟨a⟩ ⟨b⟩ = pathClean ((⟨a⟩ : String) ++ "/" ++ (⟨b⟩ : String)) := by
  unfold pathJoin2
  rw [if_neg (fun hh => strMk_ne_empty a ha hh.1)]
  rw [if_neg (strMk_ne_empty a ha), if_neg (strMk_ne_empty b hb)]

/-- C8 (amended).  The static-map entry of `hashStatic` maps `/`-plus-
relative-path to `/`-plus-fingerprinted name, where the fingerprinted
name inserts `-<hex SHA-256 digest of the content bytes>` before the
first dot of the base name — which is the extension only when the base
has a single dot — or appends it when the base has no dot; the
directory part is preserved.  The entry is a pure function of the
relative path and the content bytes. -/
theorem hashStatic_name_rule :
    (∀ (name : List Char) (content : List Nat),
        name ≠ [] → '/' ∉ name → '.' ∉ name →
        hashStaticEntry ⟨name⟩ content =
          ("/" ++ (⟨name⟩ : String),
            "/" ++ (⟨name ++ '-' :: (sha256hex content).data⟩ : String))) ∧
      (∀ (pre suf : List Char) (content : List Nat),
        '/' ∉ pre → '.' ∉ pre → '/' ∉ suf →
        hashStaticEntry ⟨pre ++ '.' :: suf⟩ content =
          ("/" ++ (⟨pre ++ '.' :: suf⟩ : String),
            "/" ++ (⟨pre ++ '-' :: ((sha256hex content).data ++ '.' :: suf)⟩ : String))) ∧
      (∀ (d name : List Char) (content : List Nat),
        d ≠ [] → '/' ∉ d → d ≠ ['.'] → d ≠ ['.', '.'] →
        name ≠ [] → '/' ∉ name → '.' ∉ name →
        hashStaticEntry ⟨d ++ '/' :: name⟩ content =
          ("/" ++ (⟨d ++ '/' :: name⟩ : String),
            "/" ++ (⟨d ++ '/' :: (name ++ '-' :: (sha256hex content).data)⟩ : String))) ∧
      (∀ (d pre suf : List Char) (content : List Nat),
        d ≠ [] → '/' ∉ d → d ≠ ['.'] → d ≠ ['.', '.'] →
        '/' ∉ pre → '.' ∉ pre → '/' ∉ suf →
        hashStaticEntry ⟨d ++ '/' :: (pre ++ '.' :: suf)⟩ content =
          ("/" ++ (⟨d ++ '/' :: (pre ++ '.' :: suf)⟩ : String),
            "/" ++ (⟨d ++ '/' :: (pre ++ '-' ::
              ((sha256hex content).data ++ '.' :: suf))⟩ : String))) := by
  refine ⟨?_, ?_, ?_, ?_⟩
  · intro name content h1 h2 h3
    unfold hashStaticEntry formatStaticName
    rw [if_neg (strMk_ne_empty name h1), if_neg (sha256hex_ne_empty content)]
    rw [pathSplit_noslash name h2]
    rw [show ((([] : List Char), name).1 : List Char) = ([] : List Char) from rfl]
    rw [show ((([] : List Char), name).2 : List Char) = name from rfl]
    rw [formatStaticBase_nodot name _ h3]
    rw [pathJoin2_empty_left _ (by simp [h1])]
    rw [show pathClean (⟨name ++ '-' :: (sha256hex content).data⟩ : String) =
      (⟨pathCleanL (name ++ '-' :: (sha256hex content).data)⟩ : String) from rfl]
    rw [pathClean_single _ (plainSeg_of _
      (by
        intro hm
        rcases List.mem_append.mp hm with hm | hm
        · exact h2 hm
        · rcases List.mem_cons.mp hm with hm | hm
          · exact absurd hm.symm (by decide)
          · exact sha256hex_no_slash content hm)
      (by
        have hn := List.length_pos_of_ne_nil h1
        have hh := List.length_pos_of_ne_nil (sha256hex_data_ne content)
        have hh2 : 0 < (sha256hex content).length := hh
        simp
        omega))]
  · intro pre suf content h2 h3 h4
    unfold hashStaticEntry formatStaticName
    rw [if_neg (strMk_ne_empty _ (by simp)), if_neg (sha256hex_ne_empty content)]
    rw [pathSplit_noslash (pre ++ '.' :: suf) (by
      intro hm
      rcases List.mem_append.mp hm with hm | hm
      · exact h2 hm
      · rcases List.mem_cons.mp hm with hm | hm
        · exact absurd hm.symm (by decide)
        · exact h4 hm)]
    rw [show ((([] : List Char), pre ++ '.' :: suf).1 : List Char) = ([] : List Char) from rfl]
    rw [show ((([] : List Char), pre ++ '.' :: suf).2 : List Char) = pre ++ '.' :: suf from rfl]
    rw [formatStaticBase_dot pre suf _ h3]
    rw [pathJoin2_empty_left _ (by simp)]
    rw [show pathClean (⟨pre ++ '-' :: ((sha256hex content).data ++ '.' :: suf)⟩ : String) =
      (⟨pathCleanL (pre ++ '-' :: ((sha256hex content).data ++ '.' :: suf))⟩ : String) from rfl]
    rw [pathClean_single _ (plainSeg_of _
      (by
        intro hm
        rcases List.mem_append.mp hm with hm | hm
        · exact h2 hm
        · rcases List.mem_cons.mp hm with hm | hm
          · exact absurd hm.symm (by decide)
          · rcases List.mem_append.mp hm with hm | hm
            · exact sha256hex_no_slash content hm
            · rcases List.mem_cons.mp hm with hm | hm
              · exact absurd hm.symm (by decide)
              · exact h4 hm)
      (by
        have hh := List.length_pos_of_ne_nil (sha256hex_data_ne content)
        have hh2 : 0 < (sha256hex content).length := hh
        simp
        omega))]
  · intro d name content hd1 hd2 hd3 hd4 h1 h2 h3
    unfold hashStaticEntry formatStaticName
    rw [if_neg (strMk_ne_empty _ (by simp [hd1])), if_neg (sha256hex_ne_empty content)]
    rw [pathSplit_onedir d name h2]
    rw [show ((d ++ ['/'], name).1 : List Char) = d ++ ['/'] from rfl]
    rw [show ((d ++ ['/'], name).2 : List Char) = name from rfl]
    rw [formatStaticBase_nodot name _ h3]
    rw [pathJoin2_both _ _ (by simp) (by simp [h1])]
    rw [show pathClean ((⟨d ++ ['/']⟩ : String) ++ "/" ++
        (⟨name ++ '-' :: (sha256hex content).data⟩ : String)) =
      (⟨pathCleanL (d ++ '/' :: '/' :: (name ++ '-' :: (sha256hex content).data))⟩ : String) from by
        unfold pathClean
        congr 1
        congr 1
        simp [String.data_append]]
    rw [pathClean_dir_double d (name ++ '-' :: (sha256hex content).data)
      ⟨hd1, hd2, hd3, hd4⟩
      (plainSeg_of _
        (by
          intro hm
          rcases List.mem_append.mp hm with hm | hm
          · exact h2 hm
          · rcases List.mem_cons.mp hm with hm | hm
            · exact absurd hm.symm (by decide)
            · exact sha256hex_no_slash content hm)
        (by
          have hn := List.length_pos_of_ne_nil h1
          have hh := List.length_pos_of_ne_nil (sha256hex_data_ne content)
          have hh2 : 0 < (sha256hex content).length := hh
          simp
          omega))]
  · intro d pre suf content hd1 hd2 hd3 hd4 h2 h3 h4
    have hbase : '/' ∉ pre ++ '.' :: suf := by
      intro hm
      rcases List.mem_append.mp hm with hm | hm
      · exact h2 hm
      · rcases List.mem_cons.mp hm with hm | hm
        · exact absurd hm.symm (by decide)
        · exact h4 hm
    unfold hashStaticEntry formatStaticName
    rw [if_neg (strMk_ne_empty _ (by simp [hd1])), if_neg (sha256hex_ne_empty content)]
    rw [pathSplit_onedir d (pre ++ '.' :: suf) hbase]
    rw [show ((d ++ ['/'], pre ++ '.' :: suf).1 : List Char) = d ++ ['/'] from rfl]
    rw [show ((d ++ ['/'], pre ++ '.' :: suf).2 : List Char) = pre ++ '.' :: suf from rfl]
    rw [formatStaticBase_dot pre suf _ h3]
    rw [pathJoin2_both _ _ (by simp) (by simp)]
    rw [show pathClean ((⟨d ++ ['/']⟩ : String) ++ "/" ++
        (⟨pre ++ '-' :: ((sha256hex content).data ++ '.' :: suf)⟩ : String)) =
      (⟨pathCleanL (d ++ '/' :: '/' ::
        (pre ++ '-' :: ((sha256hex content).data ++ '.' :: suf)))⟩ : String) from by
        unfold pathClean
        congr 1
        congr 1
        simp [String.data_append]]
    rw [pathClean_dir_double d (pre ++ '-' :: ((sha256hex content).data ++ '.' :: suf))
      ⟨hd1, hd2, hd3, hd4⟩
      (plainSeg_of _
        (by
          intro hm
          rcases List.mem_append.mp hm with hm | hm
          · exact h2 hm
          · rcases List.mem_cons.mp hm with hm | hm
            · exact absurd hm.symm (by decide)
            · rcases List.mem_append.mp hm with hm | hm
              · exact sha256hex_no_slash content hm
              · rcases List.mem_cons.mp hm with hm | hm
                · exact absurd hm.symm (by decide)
                · exact h4 hm)
        (by
          have hh := List.length_pos_of_ne_nil (sha256hex_data_ne content)
          have hh2 : 0 < (sha256hex content).length := hh
          simp
          omega))]

set_option maxRecDepth 100000 in
/-- Concrete instance of the C8 characterization: the static file
`css/main.css` with a small style sheet as content maps to its
directory-preserving fingerprinted name, with the concrete SHA-256
digest spelled out. -/
theorem hashStatic_name_rule_witness :
    hashStaticEntry ⟨"css".data ++ '/' :: ("main".data ++ '.' :: "css".data)⟩
          ("body \x7b color: red; \x7d\n".data.map Char.toNat) =
        ("/" ++ (⟨"css".data ++ '/' :: ("main".data ++ '.' :: "css".data)⟩ : String),
          "/" ++ (⟨"css".data ++ '/' :: ("main".data ++ '-' ::
            ((sha256hex ("body \x7b color: red; \x7d\n".data.map Char.toNat)).data ++
              '.' :: "css".data))⟩ : String)) ∧
      hashStaticEntry "css/main.css" ("body \x7b color: red; \x7d\n".data.map Char.toNat) =
        ("/css/main.css",
          "/css/main-9767e91e9d4b0334e59a1d389e9801bc6a2c5c4a5500a3c2c7915687965b2c16.css") :=
  ⟨hashStatic_name_rule.2.2.2 "css".data "main".data "css".data _
      (by decide) (by decide) (by decide) (by decide) (by decide) (by decide) (by decide),
    by decide⟩

set_option maxRecDepth 100000 in
/-- C8 counterexample.  The claim inserts the digest before the file's
extension; on a base name with two dots the code inserts it before the
first dot instead: `main.css.map` fingerprints to
`main-<hash>.css.map`, not `main.css-<hash>.map`. -/
theorem formatStaticName_ext_counterexample :
    formatStaticName "main.css.map" (sha256hex []) =
        "main-e3b0c44298fc1c149afbf4c8996fb92427ae41e4649b934ca495991b7852b855.css.map" ∧
      formatStaticNameSpec "main.css.map" (sha256hex []) =
        "main.css-e3b0c44298fc1c149afbf4c8996fb92427ae41e4649b934ca495991b7852b855.map" ∧
      formatStaticName "main.css.map" (sha256hex []) ≠
        formatStaticNameSpec "main.css.map" (sha256hex []) :=
  ⟨by decide, by decide, by decide⟩

/-! ### C7: Build clears the previous output only after loading succeeds -/

/-- The error cases of `Build` the atomicity claim distinguishes:
failures in the three loading walks (template parsing, page parsing,
static reading/hashing), and the write-stage failures (a missing
template, a failing `Page.build`, a failing minification in
`copyStatic`; `staticRead` also covers re-read failures there). -/
inductive BuildErr where
  | tplParse (path e : String)
  | pageErr (e : ParseErr)
  | staticRead (path e : String)
  | missingTemplate (path tpl : String)
  | render (path e : String)
  | minifyErr (path e : String)
deriving Repr, DecidableEq

/-- A destination-tree entry: built pages, the feed and `robots.txt`
are written as text, static copies as bytes. -/
inductive DstContent where
  | text (s : String)
  | bytes (b : List Nat)
deriving Repr, DecidableEq

/-- The world `Build` acts on: the walked source trees in walk order —
template and page files with their text, static files whose reads may
fail (`os.ReadFile` errors) — and the destination tree, `none` when
the directory does not exist yet. -/
structure BuildWorld where
  templates : List (String × String)
  pages : List (String × String)
  static : List (String × Except String (List Nat))
  dst : Option (List (String × DstContent))

/-- Go `strings.TrimSuffix`. -/
def goTrimSuffix (s suf : String) : String :=
  if goHasSuffix s suf then ⟨s.data.take (s.data.length - suf.data.length)⟩ else s

/-- Go map lookup over an assignment list in which a later assignment
to a key overwrites an earlier one. -/
def mapLookup {α : Type} (l : List (String × α)) (k : String) : Option α :=
  (l.reverse.find? (fun e => e.1 = k)).map (fun e => e.2)

/-- The template-loading walk `parseTemplates` over the walked
template files (the walk list holds files only, relative to the
template root): non-`.html` files are skipped, the template name is
the path with its extension trimmed, and the text goes to the
`html/template` parser — a parameter, Go template parsing being
external to this package — whose failure aborts the walk. -/
def parseTemplatesWalk {α : Type} (tplParse : String → Except String α) :
    List (String × String) → List (String × α) → Except BuildErr (List (String × α))
  | [], acc => Except.ok acc
  | f :: rest, acc =>
    if filepathExt f.1 ≠ ".html" then parseTemplatesWalk tplParse rest acc
    else
      match tplParse f.2 with
      | Except.error e => Except.error (BuildErr.tplParse f.1 e)
      | Except.ok t =>
        parseTemplatesWalk tplParse rest
          (acc ++ [(goTrimSuffix f.1 (filepathExt f.1), t)])

/-- The page-loading walk `parsePages`: ignorable paths are skipped,
each file goes through `Page.parse`, whose failure aborts the walk,
and drafts are kept only outside production mode. -/
def parsePagesWalk (prod : Bool) :
    List (String × String) → List Page → Except BuildErr (List Page)
  | [], acc => Except.ok acc
  | f :: rest, acc =>
    if isIgnorable f.1 then parsePagesWalk prod rest acc
    else
      match pageParse f.1 f.2 with
      | Except.error e => Except.error (BuildErr.pageErr e)
      | Except.ok p =>
        parsePagesWalk prod rest (if !p.draft || !prod then acc ++ [p] else acc)

/-- The static-hashing walk `hashStatic`, refining `hashStaticMap`
with `os.ReadFile` failures: ignorable and skip-listed files are
skipped, a read error aborts the walk, and each remaining file is
recorded as in `hashStaticEntry`. -/
def hashStaticWalk :
    List (String × Except String (List Nat)) → List (String × String) →
      Except BuildErr (List (String × String))
  | [], acc => Except.ok acc
  | f :: rest, acc =>
    if isIgnorable f.1 then hashStaticWalk rest acc
    else if skipHashing.any (fun skip => goContains f.1 skip) then hashStaticWalk rest acc
    else
      match f.2 with
      | Except.error e => Except.error (BuildErr.staticRead f.1 e)
      | Except.ok buf => hashStaticWalk rest (acc ++ [hashStaticEntry f.1 buf])

/-- An `os.Create`/`os.WriteFile`-style write into the destination
tree: an existing entry is truncated and rewritten in place, a new one
appended. -/
def dstWrite (d : List (String × DstContent)) (k : String) (v : DstContent) :
    List (String × DstContent) :=
  if (d.find? (fun e => e.1 = k)).isSome then
    d.map (fun e => if e.1 = k then (k, v) else e)
  else d ++ [(k, v)]

/-- The page-writing loop of `Build`: each page's destination file is
created first (so it exists, empty, when a later step fails for that
page), the page's template is looked up, and the rendered output —
`Page.build`, whose template-execution core is the `render` parameter —
replaces the empty file. An error aborts the loop, keeping the files
written so far. -/
def writePages {α : Type} (render : Page → α → Except String String)
    (tpls : List (String × α)) :
    List Page → List (String × DstContent) →
      Except BuildErr Unit × List (String × DstContent)
  | [], d => (Except.ok (), d)
  | p :: rest, d =>
    match mapLookup tpls p.template with
    | none =>
        (Except.error (BuildErr.missingTemplate p.path p.template),
         dstWrite d p.dstPath (DstContent.text ""))
    | some t =>
      match render p t with
      | Except.error e =>
          (Except.error (BuildErr.render p.path e),
           dstWrite d p.dstPath (DstContent.text ""))
      | Except.ok out => writePages render tpls rest (dstWrite d p.dstPath (DstContent.text out))

/-- The `robots.txt` contents written by `Build`. -/
def robotsTxt : String := "User-agent: *\n"

/-- The media-type table of `copyStatic`. -/
def copyMediaType (ext : String) : String :=
  if ext = ".css" then "text/css"
  else if ext = ".js" then "application/javascript"
  else if ext = ".json" then "application/json"
  else ""

/-- The static-copying walk `copyStatic`: ignorable files are skipped,
the fingerprinted name is looked up (falling back to the plain
relative path), the bytes are reread, CSS/JS/JSON pass through the
minifier — a parameter, the minifier being an external library — and
the result lands at the fingerprinted name. An error aborts the walk,
keeping the files written so far. -/
def copyStaticWalk (minifyB : String → List Nat → Except String (List Nat))
    (smap : List (String × String)) :
    List (String × Except String (List Nat)) → List (String × DstContent) →
      Except BuildErr Unit × List (String × DstContent)
  | [], d => (Except.ok (), d)
  | f :: rest, d =>
    if isIgnorable f.1 then copyStaticWalk minifyB smap rest d
    else
      match f.2 with
      | Except.error e => (Except.error (BuildErr.staticRead f.1 e), d)
      | Except.ok buf =>
        match (if copyMediaType (filepathExt f.1) ≠ "" then
                 minifyB (copyMediaType (filepathExt f.1)) buf
               else Except.ok buf) with
        | Except.error e => (Except.error (BuildErr.minifyErr f.1 e), d)
        | Except.ok out =>
          copyStaticWalk minifyB smap rest
            (dstWrite d
              (match mapLookup smap ("/" ++ f.1) with
               | some h => h
               | none => "/" ++ f.1)
              (DstContent.bytes out))

/-- Translation of `Build` over a `BuildWorld`: the three loading
walks run first and any failure there returns at once, leaving the
world untouched; only then is the destination cleared (`os.Stat` +
`os.RemoveAll` + `os.MkdirAll` leave an empty tree whatever was
there), the sorted pages are written, then the feed (its XML an
opaque parameter, `gorilla/feeds` being external) unless skipped,
`robots.txt`, and the static copies. -/
def buildRun {α : Type} (tplParse : String → Except String α)
    (render : Page → α → Except String String)
    (minifyB : String → List Nat → Except String (List Nat))
    (prod skipFeed : Bool) (feedXml : String) (w : BuildWorld) :
    Except BuildErr Unit × BuildWorld :=
  match parseTemplatesWalk tplParse w.templates [] with
  | Except.error e => (Except.error e, w)
  | Except.ok tpls =>
    match parsePagesWalk prod w.pages [] with
    | Except.error e => (Except.error e, w)
    | Except.ok pages =>
      match hashStaticWalk w.static [] with
      | Except.error e => (Except.error e, w)
      | Except.ok smap =>
        match writePages render tpls (sortPages pages.toArray).toList [] with
        | (Except.error e, d1) => (Except.error e, { w with dst := some d1 })
        | (Except.ok _, d1) =>
          match copyStaticWalk minifyB smap w.static
            (dstWrite
              (if !skipFeed then dstWrite d1 "feed.xml" (DstContent.text feedXml) else d1)
              "robots.txt" (DstContent.text robotsTxt)) with
          | (st, d4) => (st, { w with dst := some d4 })

/-- **C7.** `Build` is atomic with respect to the previous output
while loading inputs: whenever one of the three loading stages —
template parsing, page parsing, static hashing — fails, `Build`
returns that error with the whole world (in particular the previous
build's destination tree) untouched; and once all three loading stages
succeed, the outcome and the final destination tree do not depend on
the previous destination tree at all, which is cleared before any
write happens. -/
theorem build_loading_atomic {α : Type} (tplParse : String → Except String α)
    (render : Page → α → Except String String)
    (minifyB : String → List Nat → Except String (List Nat))
    (prod skipFeed : Bool) (feedXml : String) (w : BuildWorld) :
    (∀ e, parseTemplatesWalk tplParse w.templates [] = Except.error e →
      buildRun tplParse render minifyB prod skipFeed feedXml w = (Except.error e, w)) ∧
    (∀ tpls e, parseTemplatesWalk tplParse w.templates [] = Except.ok tpls →
      parsePagesWalk prod w.pages [] = Except.error e →
      buildRun tplParse render minifyB prod skipFeed feedXml w = (Except.error e, w)) ∧
    (∀ tpls pgs e, parseTemplatesWalk tplParse w.templates [] = Except.ok tpls →
      parsePagesWalk prod w.pages [] = Except.ok pgs →
      hashStaticWalk w.static [] = Except.error e →
      buildRun tplParse render minifyB prod skipFeed feedXml w = (Except.error e, w)) ∧
    (∀ tpls pgs smap, parseTemplatesWalk tplParse w.templates [] = Except.ok tpls →
      parsePagesWalk prod w.pages [] = Except.ok pgs →
      hashStaticWalk w.static [] = Except.ok smap →
      ∀ d', buildRun tplParse render minifyB prod skipFeed feedXml { w with dst := d' }
        = buildRun tplParse render minifyB prod skipFeed feedXml w) := by
  refine ⟨?_, ?_, ?_, ?_⟩
  · intro e he
    simp only [buildRun, he]
  · intro tpls e ht hp
    simp only [buildRun, ht, hp]
  · intro tpls pgs e ht hp hs
    simp only [buildRun, ht, hp, hs]
  · intro tpls pgs smap ht hp hs d'
    simp only [buildRun, ht, hp, hs]

/-- A build world holding a previous good build in its destination, a
template, and a page file with no front matter, on which page loading
fails. -/
def buildDemoWorld : BuildWorld where
  templates := [("main.html", "t")]
  pages := [("pages/bad.md", "hello\n")]
  static := []
  dst := some [("index.html", DstContent.text "old")]

/-- Witness: on `buildDemoWorld` the page-loading stage fails, `Build`
returns the front-matter error and the previous destination tree is
untouched; and, dropping the bad page file so that all loading stages
succeed, the build result is the same whether a previous destination
tree existed or not. -/
theorem build_loading_atomic_witness :
    buildRun (fun _ => Except.ok ()) (fun p _ => Except.ok ⟨p.contents⟩)
        (fun _ b => Except.ok b) false true "" buildDemoWorld
      = (Except.error (BuildErr.pageErr ParseErr.frontmatterMissing), buildDemoWorld) ∧
    buildRun (fun _ => Except.ok ()) (fun p _ => Except.ok ⟨p.contents⟩)
        (fun _ b => Except.ok b) false true ""
        { buildDemoWorld with pages := [], dst := none }
      = buildRun (fun _ => Except.ok ()) (fun p _ => Except.ok ⟨p.contents⟩)
        (fun _ b => Except.ok b) false true "" { buildDemoWorld with pages := [] } := by
  constructor
  · exact (build_loading_atomic (fun _ => Except.ok ()) (fun p _ => Except.ok ⟨p.contents⟩)
      (fun _ b => Except.ok b) false true "" buildDemoWorld).2.1
      [("main", ())] (BuildErr.pageErr ParseErr.frontmatterMissing) (by rfl) (by rfl)
  · exact (build_loading_atomic (fun _ => Except.ok ()) (fun p _ => Except.ok ⟨p.contents⟩)
      (fun _ b => Except.ok b) false true "" { buildDemoWorld with pages := [] }).2.2.2
      [("main", ())] [] [] (by rfl) (by rfl) (by rfl) none

end Site
